import Mathlib

/-!
Verification of the cluster orchestration core of `docker-impl`
(`pkg/cluster/node.go`, `pkg/cluster/task.go`, `pkg/cluster/health.go`,
and the `ClusterManager` file).

The Go code is shallowly embedded: registries (Go maps keyed by id) become
association lists, `int64` quantities become `Int`, `float64` slack scores
become `ℚ`, fallible operations return `Except String`, and the effect of
each public operation is a pure function on the registry state.  Timestamps
(`time.Now().Format(...)`) are threaded as an explicit `now : String`
parameter.  Fresh identifiers produced by `generateTaskID` are threaded as
explicit parameters, with freshness stated as a hypothesis where the Go
code relies on it.
-/

namespace DockerImpl

/-- Node status enum (`NodeStatus` in node.go). -/
inductive NodeStatus where
| ready
| active
| draining
| down
| unknown
deriving DecidableEq, Repr

/-- Node role enum (`NodeRole` in node.go). -/
inductive NodeRole where
| manager
| worker
| agent
deriving DecidableEq, Repr

/-- Resource capacities (`Resources` in node.go); cpu millicores, memory and
disk in bytes, gpu count.  Go `int64`/`int` modelled as `Int`. -/
structure Resources where
cpu : Int
memory : Int
disk : Int
gpu : Int
deriving DecidableEq, Repr

/-- A cluster node (`Node` in node.go).  The `Manager` back-pointer and the
capability/label maps play no role in the verified operations and are
omitted; every field read or written by the embedded operations is kept. -/
structure Node where
id : String
name : String
address : String
port : Int
role : NodeRole
status : NodeStatus
resources : Resources
lastSeen : String
createdAt : String
updatedAt : String
version : String
deriving DecidableEq, Repr

/-- Task status enum (`TaskStatus` in task.go). -/
inductive TaskStatus where
| new
| pending
| assigned
| accepted
| preparing
| ready
| starting
| running
| complete
| failed
| shutdown
| rejected
| orphaned
| taskRemove
deriving DecidableEq, Repr

/-- A task (`Task` in task.go).  Constraint/placement/volume/secret/config
sub-structures are opaque to every verified operation (they are only copied
wholesale); they are represented by the `command`, `env` and `labels`
fields that stand for the copied payload, plus every field the embedded
operations read or write. -/
structure Task where
id : String
name : String
image : String
command : List String
env : List String
resources : Resources
labels : List (String × String)
status : TaskStatus
nodeID : String
desiredState : TaskStatus
createdAt : String
updatedAt : String
startedAt : String
completedAt : String
serviceID : String
slot : Int
deriving DecidableEq, Repr

/-- Is an `Except` result an error? -/
def isErr {α : Type} : Except String α → Bool
| Except.error _ => true
| Except.ok _ => false

/-- Registry lookup (`nm.nodes[nodeID]`). -/
def findNode (nodes : List Node) (nodeID : String) : Option Node :=
nodes.find? (fun n => n.id == nodeID)

/-- Registry assignment (`nm.nodes[node.ID] = node`): replace the entry
with the same id, or append when absent. -/
def upsertNode (nodes : List Node) (node : Node) : List Node :=
if nodes.any (fun n => n.id == node.id) then
  nodes.map (fun n => if n.id == node.id then node else n)
else
  nodes ++ [node]

/-- `validateNode` in node.go: required fields, port range, role enum,
strictly positive resources. -/
def validateNode (node : Node) : Except String Unit :=
if node.id = "" then Except.error "node ID is required"
else if node.name = "" then Except.error "node name is required"
else if node.address = "" then Except.error "node address is required"
else if node.port ≤ 0 ∨ node.port > 65535 then Except.error "invalid node port"
else if node.role ≠ NodeRole.manager ∧ node.role ≠ NodeRole.worker ∧ node.role ≠ NodeRole.agent then
  Except.error "invalid node role"
else if node.resources.cpu ≤ 0 then Except.error "node CPU must be positive"
else if node.resources.memory ≤ 0 then Except.error "node memory must be positive"
else if node.resources.disk ≤ 0 then Except.error "node disk must be positive"
else Except.ok ()

/-- `RegisterNode` in node.go: stamp timestamps (preserving the original
creation time on update), validate, then upsert. -/
def registerNode (nodes : List Node) (node : Node) (now : String) : Except String (List Node) :=
let node' :=
  match findNode nodes node.id with
  | some existing => { node with createdAt := existing.createdAt, updatedAt := now }
  | none => { node with createdAt := now, updatedAt := now }
match validateNode node' with
| Except.error e => Except.error e
| Except.ok _ => Except.ok (upsertNode nodes node')

/-- `GetManagerNodes` in node.go. -/
def getManagerNodes (nodes : List Node) : List Node :=
nodes.filter (fun n => n.role == NodeRole.manager)

/-- `UnregisterNode` in node.go: refuse to remove the last manager-role
node, otherwise delete the entry. -/
def unregisterNode (nodes : List Node) (nodeID : String) : Except String (List Node) :=
match findNode nodes nodeID with
| none => Except.error "node not found"
| some node =>
  if node.role = NodeRole.manager ∧ (getManagerNodes nodes).length ≤ 1 then
    Except.error "cannot remove last manager node"
  else
    Except.ok (nodes.filter (fun n => !(n.id == nodeID)))

/-- `UnregisterNode` with the source's lock discipline made explicit.
The Go function takes `nm.mu.Lock()` and holds it (by defer) for its
whole body; the manager branch then calls `nm.GetManagerNodes()`, which
takes `nm.mu.RLock()` on the same non-reentrant `sync.RWMutex` and so
blocks forever while this call holds the write lock.  `none` models a
call that never returns; `some r` a call returning `r`.  Only the
non-manager path (which never reaches `GetManagerNodes`) completes. -/
def unregisterNodeExec (nodes : List Node) (nodeID : String) : Option (Except String (List Node)) :=
match findNode nodes nodeID with
| none => some (Except.error "node not found")
| some node =>
  if node.role = NodeRole.manager then
    none
  else
    some (Except.ok (nodes.filter (fun n => !(n.id == nodeID))))

/-- `UpdateNodeStatus` in node.go (missing node: error, modelled as the
unchanged registry for the internal callers that ignore the error). -/
def updateNodeStatus (nodes : List Node) (nodeID : String) (status : NodeStatus) (now : String) : List Node :=
nodes.map (fun n => if n.id == nodeID then { n with status := status, updatedAt := now, lastSeen := now } else n)

/-- `DrainNode` in node.go. -/
def drainNode (nodes : List Node) (nodeID : String) (now : String) : Except String (List Node) :=
match findNode nodes nodeID with
| none => Except.error "node not found"
| some node =>
  if node.role = NodeRole.manager then Except.error "cannot drain manager node"
  else Except.ok (nodes.map (fun n => if n.id == nodeID then { n with status := NodeStatus.draining, updatedAt := now } else n))

/-- `ActivateNode` in node.go. -/
def activateNode (nodes : List Node) (nodeID : String) (now : String) : Except String (List Node) :=
match findNode nodes nodeID with
| none => Except.error "node not found"
| some _ =>
  Except.ok (nodes.map (fun n => if n.id == nodeID then { n with status := NodeStatus.active, updatedAt := now, lastSeen := now } else n))

/-- `UpdateNodeResources` in node.go: overwrites the resources with NO
validation. -/
def updateNodeResources (nodes : List Node) (nodeID : String) (resources : Resources) (now : String) : Except String (List Node) :=
match findNode nodes nodeID with
| none => Except.error "node not found"
| some _ =>
  Except.ok (nodes.map (fun n => if n.id == nodeID then { n with resources := resources, updatedAt := now } else n))

/-- `nodeHasCapacity` in node.go: capacity at least the request on cpu,
memory and disk simultaneously. -/
def nodeHasCapacity (node : Node) (task : Task) : Bool :=
node.resources.cpu ≥ task.resources.cpu &&
node.resources.memory ≥ task.resources.memory &&
node.resources.disk ≥ task.resources.disk

/-- The filter loop at the top of `SelectNodeForTask`: status ready or
active, and sufficient capacity. -/
def candidateNodes (nodes : List Node) (task : Task) : List Node :=
nodes.filter (fun n => (n.status == NodeStatus.ready || n.status == NodeStatus.active) && nodeHasCapacity n task)

/-- The per-node slack score computed in `selectNodeByResources`:
average of `(node.cpu − task.cpu)/node.cpu` and
`(node.memory − task.memory)/node.memory`.  Go `float64` arithmetic is
modelled exactly over `ℚ`. -/
def nodeScore (node : Node) (task : Task) : ℚ :=
let cpuScore : ℚ := ((node.resources.cpu : ℚ) - (task.resources.cpu : ℚ)) / (node.resources.cpu : ℚ)
let memoryScore : ℚ := ((node.resources.memory : ℚ) - (task.resources.memory : ℚ)) / (node.resources.memory : ℚ)
(cpuScore + memoryScore) / 2

/-- The selection loop of `selectNodeByResources`: running best node and
best score, strict improvement (`totalScore > bestScore`), initial best
score `-1.0` and initial best node nil (`none`). -/
def selectLoop (task : Task) : List Node → Option Node → ℚ → Option Node × ℚ
| [], best, bestScore => (best, bestScore)
| node :: rest, best, bestScore =>
  let totalScore := nodeScore node task
  if bestScore < totalScore then selectLoop task rest (some node) totalScore
  else selectLoop task rest best bestScore

/-- `selectNodeByResources` in node.go (`none` is Go's nil `*Node`). -/
def selectNodeByResources (nodes : List Node) (task : Task) : Option Node :=
(selectLoop task nodes none (-1)).1

/-- `SelectNodeForTask` in node.go: filter, fail when no candidate
remains, otherwise pick by score. -/
def selectNodeForTask (nodes : List Node) (task : Task) : Except String (Option Node) :=
let cands := candidateNodes nodes task
if cands.length = 0 then Except.error "no available nodes with sufficient capacity"
else Except.ok (selectNodeByResources cands task)

structure TMState where
tasks : List Task
queue : List Task
pendingEnqueue : List Task
deriving DecidableEq, Repr

/-- The dispatch queue capacity (`make(chan *Task, 1000)`). -/
def queueCapacity : Nat := 1000

/-- Registry lookup (`tm.tasks[taskID]`). -/
def findTask (tasks : List Task) (taskID : String) : Option Task :=
tasks.find? (fun t => t.id == taskID)

/-- Registry assignment (`tm.tasks[id] = task`). -/
def upsertTask (tasks : List Task) (task : Task) : List Task :=
if tasks.any (fun t => t.id == task.id) then
  tasks.map (fun t => if t.id == task.id then task else t)
else
  tasks ++ [task]

/-- `validateTask` in task.go. -/
def validateTask (task : Task) : Except String Unit :=
if task.id = "" then Except.error "task ID is required"
else if task.name = "" then Except.error "task name is required"
else if task.image = "" then Except.error "task image is required"
else if task.resources.cpu ≤ 0 then Except.error "task CPU must be positive"
else if task.resources.memory ≤ 0 then Except.error "task memory must be positive"
else Except.ok ()

/-- The initial state `CreateTask` writes into the stored task: status
New, desired state Running, both timestamps set to the creation instant. -/
def initializedTask (task : Task) (now : String) : Task :=
{ task with
  status := TaskStatus.new
  desiredState := TaskStatus.running
  createdAt := now
  updatedAt := now }

/-- `CreateTask` in task.go: validate, set status New / desired Running,
stamp timestamps, store, then a non-blocking enqueue — when the buffered
channel is full the task is handed to a detached goroutine that blocks
until the enqueue succeeds, and the call still returns nil. -/
def createTask (s : TMState) (task : Task) (now : String) : Except String TMState :=
match validateTask task with
| Except.error e => Except.error e
| Except.ok _ =>
  let t := initializedTask task now
  let tasks' := upsertTask s.tasks t
  if s.queue.length < queueCapacity then
    Except.ok { s with tasks := tasks', queue := s.queue ++ [t] }
  else
    Except.ok { s with tasks := tasks', pendingEnqueue := s.pendingEnqueue ++ [t] }

/-- Mutation of the single registry entry with a given id (a Go map holds
one entry per id; the association list transcribes that as a map over the
matching entries). -/
def mapUpd (tasks : List Task) (taskID : String) (g : Task → Task) : List Task :=
tasks.map (fun t => if t.id == taskID then g t else t)

/-- `updateTaskStatus` in task.go: set status and refresh `UpdatedAt` on
the registry entry; a missing id is a no-op. -/
def updateTaskStatus (tasks : List Task) (taskID : String) (status : TaskStatus) (now : String) : List Task :=
mapUpd tasks taskID (fun t => { t with status := status, updatedAt := now })

/-- The `task.NodeID = node.ID` assignment in `processTask` (through the
shared registry pointer). -/
def assignNodeID (tasks : List Task) (taskID : String) (nodeID : String) : List Task :=
mapUpd tasks taskID (fun t => { t with nodeID := nodeID })

/-- The `task.StartedAt = ...` assignment at the end of `processTask`. -/
def setStartedAt (tasks : List Task) (taskID : String) (now : String) : List Task :=
mapUpd tasks taskID (fun t => { t with startedAt := now })

/-- `processTask` in task.go, the worker dispatch path, taken as one
atomic step of the sequential model: mark Pending; select a node; on
selection failure mark Failed; on success record the node id, mark
Assigned, hand off (`sendTaskToNode` always returns nil in the source),
mark Running and stamp the start time.  The `Except.ok none` branch is
Go's nil-pointer case, unreachable from a validated registry; the model
leaves the state after the Pending mark there. -/
def processTask (s : TMState) (task : Task) (nodes : List Node) (now : String) : TMState :=
let s1 := { s with tasks := updateTaskStatus s.tasks task.id TaskStatus.pending now }
match selectNodeForTask nodes task with
| Except.error _ => { s1 with tasks := updateTaskStatus s1.tasks task.id TaskStatus.failed now }
| Except.ok none => s1
| Except.ok (some node) =>
  let s2 := { s1 with tasks := assignNodeID s1.tasks task.id node.id }
  let s3 := { s2 with tasks := updateTaskStatus s2.tasks task.id TaskStatus.assigned now }
  let s4 := { s3 with tasks := updateTaskStatus s3.tasks task.id TaskStatus.running now }
  { s4 with tasks := setStartedAt s4.tasks task.id now }

/-- The deferred completion callback spawned by `sendTaskToNode`: the
registry entry is marked Complete and stamped; a missing id is a no-op. -/
def completeTask (s : TMState) (taskID : String) (now : String) : TMState :=
{ s with tasks := mapUpd s.tasks taskID (fun t => { t with status := TaskStatus.complete, completedAt := now, updatedAt := now }) }

/-- The update payload of `UpdateTask` in task.go: Go signals "field not
provided" with the zero value (`""`/nil), modelled by `Option`. -/
structure TaskUpdate where
name : String
desiredState : Option TaskStatus
labels : Option (List (String × String))
deriving DecidableEq, Repr

/-- The per-entry effect of `UpdateTask`: name, desired state and labels
when provided, then a refreshed `UpdatedAt`. -/
def applyTaskUpdate (u : TaskUpdate) (now : String) (t : Task) : Task :=
let t1 := if u.name ≠ "" then { t with name := u.name } else t
let t2 := match u.desiredState with
          | some d => { t1 with desiredState := d }
          | none => t1
let t3 := match u.labels with
          | some ls => { t2 with labels := ls }
          | none => t2
{ t3 with updatedAt := now }

/-- `UpdateTask` in task.go: update name, desired state and labels when
provided, refresh `UpdatedAt`. -/
def updateTask (tasks : List Task) (taskID : String) (u : TaskUpdate) (now : String) : Except String (List Task) :=
match findTask tasks taskID with
| none => Except.error "task not found"
| some _ => Except.ok (mapUpd tasks taskID (applyTaskUpdate u now))

/-- `RemoveTask` in task.go: refuse while Running, otherwise delete. -/
def removeTask (tasks : List Task) (taskID : String) : Except String (List Task) :=
match findTask tasks taskID with
| none => Except.error "task not found"
| some task =>
  if task.status = TaskStatus.running then Except.error "cannot remove running task"
  else Except.ok (tasks.filter (fun t => !(t.id == taskID)))

/-- The stopped original written back by `RestartTask`: desired state
Complete, `UpdatedAt` refreshed. -/
def stoppedTask (task : Task) (now : String) : Task :=
{ task with desiredState := TaskStatus.complete, updatedAt := now }

/-- The clone built by `RestartTask` (`newTask := *task` after the
original was stopped, then identity, status, desired state, timestamps
overridden and start/completion times cleared; every other field —
`NodeID` included — is the copied original value). -/
def cloneTask (task : Task) (newID : String) (now : String) : Task :=
{ stoppedTask task now with
  id := newID, status := TaskStatus.new, desiredState := TaskStatus.running,
  createdAt := now, updatedAt := now, startedAt := "", completedAt := "" }

/-- The state written by a successful `RestartTask`: the found entry is
stopped in place, the clone is stored and enqueued. -/
def restartedState (s : TMState) (taskID : String) (task : Task) (newID now : String) : TMState :=
{ s with
  tasks := upsertTask (mapUpd s.tasks taskID (fun _ => stoppedTask task now))
    (cloneTask task newID now)
  queue := s.queue ++ [cloneTask task newID now] }

/-- `RestartTask` in task.go: stop the existing task (desired state
Complete), clone its configuration under a fresh identity, store the
clone and enqueue it (a blocking send, modelled as an append). -/
def restartTask (s : TMState) (taskID : String) (newID : String) (now : String) : Except String TMState :=
match findTask s.tasks taskID with
| none => Except.error "task not found"
| some task => Except.ok (restartedState s taskID task newID now)

/-- `GetTasksByNode` in task.go. -/
def getTasksByNode (tasks : List Task) (nodeID : String) : List Task :=
tasks.filter (fun t => t.nodeID == nodeID)

/-- The rescheduling loop of `HandleNodeFailure`: over the snapshot of the
failed node's tasks, call `RestartTask` for each Running one (errors are
logged and ignored), consuming one generated id per restart. -/
def restartRunning : TMState → List Task → List String → String → TMState
| s, [], _, _ => s
| s, t :: ts, freshIDs, now =>
  if t.status = TaskStatus.running then
    match freshIDs with
    | [] => restartRunning s ts [] now
    | fid :: rest =>
      match restartTask s t.id fid now with
      | Except.ok s' => restartRunning s' ts rest now
      | Except.error _ => restartRunning s ts rest now
  else restartRunning s ts freshIDs now

/-- `HandleNodeFailure` in the ClusterManager: fetch the node (error when
absent), mark it Down, fetch its tasks and restart the Running ones. -/
def handleNodeFailure (nodes : List Node) (s : TMState) (nodeID : String)
    (freshIDs : List String) (now : String) : Except String (List Node × TMState) :=
match findNode nodes nodeID with
| none => Except.error "failed to get node"
| some _ =>
  let nodes' := updateNodeStatus nodes nodeID NodeStatus.down now
  let victims := getTasksByNode s.tasks nodeID
  Except.ok (nodes', restartRunning s victims freshIDs now)

/-- One probe result (`HealthCheck` in node.go): the status is the string
"passed", "warning" or "failed". -/
structure HealthCheck where
name : String
status : String
duration : Int
message : String
deriving DecidableEq, Repr

/-- `calculateOverallHealth` in health.go: any failed ⇒ Down; else any
warning ⇒ Unknown; else Ready. -/
def calculateOverallHealth (checks : List HealthCheck) : NodeStatus :=
let failedCount := (checks.filter (fun c => c.status == "failed")).length
let warningCount := (checks.filter (fun c => c.status == "warning")).length
if failedCount > 0 then NodeStatus.down
else if warningCount > 0 then NodeStatus.unknown
else NodeStatus.ready

/-- The externally visible effect of one `checkNodeHealth` pass on the
cluster: the status written through `UpdateNodeStatus`, and the node ids
passed to the cluster's failure-handling path.  The source never invokes
`HandleNodeFailure` (or any failure handling) from the health check, so
that list is built solely from the branches of the source, which contain
no such call. -/
structure HealthEffect where
statusUpdate : Option NodeStatus
failureInvocations : List String
deriving DecidableEq, Repr

/-- The status-update tail of `checkNodeHealth` in health.go: the probe
results are inputs (the probes themselves are network I/O); the overall
status is aggregated, then: aggregate Down ⇒ write Down; else node
currently Down and aggregate Ready ⇒ write Ready; else no write.  No
branch invokes the failure-handling path. -/
def checkNodeHealth (node : Node) (checks : List HealthCheck) : HealthEffect :=
let overall := calculateOverallHealth checks
if overall = NodeStatus.down then
  { statusUpdate := some NodeStatus.down, failureInvocations := [] }
else if node.status = NodeStatus.down ∧ overall = NodeStatus.ready then
  { statusUpdate := some NodeStatus.ready, failureInvocations := [] }
else
  { statusUpdate := none, failureInvocations := [] }

/-- `ListNodes` in node.go: copies every registry entry into a slice. -/
def listNodes (nodes : List Node) : List Node := nodes

inductive Reachable : TMState → Prop where
| init : Reachable { tasks := [], queue := [], pendingEnqueue := [] }
| create {s s' : TMState} {t : Task} {now : String} :
    Reachable s → createTask s t now = Except.ok s' → Reachable s'
| process {s : TMState} {t : Task} {rest : List Task} {nodes : List Node} {now : String} :
    Reachable s → s.queue = t :: rest → (∀ n ∈ nodes, n.id ≠ "") →
    Reachable (processTask { s with queue := rest } t nodes now)
| flush {s : TMState} {t : Task} {rest : List Task} :
    Reachable s → s.pendingEnqueue = t :: rest → s.queue.length < queueCapacity →
    Reachable { s with queue := s.queue ++ [t], pendingEnqueue := rest }
| complete {s : TMState} {taskID now : String} :
    Reachable s → (∀ u ∈ s.tasks, u.id = taskID → u.status = TaskStatus.running) →
    Reachable (completeTask s taskID now)
| restart {s s' : TMState} {taskID newID now : String} :
    Reachable s → (∀ u ∈ s.tasks, u.id ≠ newID) →
    restartTask s taskID newID now = Except.ok s' → Reachable s'
| update {s : TMState} {taskID : String} {u : TaskUpdate} {now : String} {ts' : List Task} :
    Reachable s → updateTask s.tasks taskID u now = Except.ok ts' →
    Reachable { s with tasks := ts' }
| removeT {s : TMState} {taskID : String} {ts' : List Task} :
    Reachable s → removeTask s.tasks taskID = Except.ok ts' →
    Reachable { s with tasks := ts' }

/-- The same machine restricted to the dispatch-path discipline: tasks are
created with an empty `NodeID` and a globally fresh id, and `RestartTask`
is not used.  This is the discipline under which the NodeID/status
invariant of the spec holds. -/
inductive ReachableD : TMState → Prop where
| init : ReachableD { tasks := [], queue := [], pendingEnqueue := [] }
| create {s s' : TMState} {t : Task} {now : String} :
    ReachableD s → t.nodeID = "" →
    (∀ u ∈ s.tasks, u.id ≠ t.id) →
    (∀ u ∈ s.queue ++ s.pendingEnqueue, u.id ≠ t.id) →
    createTask s t now = Except.ok s' → ReachableD s'
| process {s : TMState} {t : Task} {rest : List Task} {nodes : List Node} {now : String} :
    ReachableD s → s.queue = t :: rest → (∀ n ∈ nodes, n.id ≠ "") →
    ReachableD (processTask { s with queue := rest } t nodes now)
| flush {s : TMState} {t : Task} {rest : List Task} :
    ReachableD s → s.pendingEnqueue = t :: rest → s.queue.length < queueCapacity →
    ReachableD { s with queue := s.queue ++ [t], pendingEnqueue := rest }
| complete {s : TMState} {taskID now : String} :
    ReachableD s → (∀ u ∈ s.tasks, u.id = taskID → u.status = TaskStatus.running) →
    ReachableD (completeTask s taskID now)
| update {s : TMState} {taskID : String} {u : TaskUpdate} {now : String} {ts' : List Task} :
    ReachableD s → updateTask s.tasks taskID u now = Except.ok ts' →
    ReachableD { s with tasks := ts' }
| removeT {s : TMState} {taskID : String} {ts' : List Task} :
    ReachableD s → removeTask s.tasks taskID = Except.ok ts' →
    ReachableD { s with tasks := ts' }

/-- Node registries reachable through the public NodeManager mutation
operations. -/
inductive NodeOpReach : List Node → Prop where
| init : NodeOpReach []
| register {ns ns' : List Node} {n : Node} {now : String} :
    NodeOpReach ns → registerNode ns n now = Except.ok ns' → NodeOpReach ns'
| unregister {ns ns' : List Node} {i : String} :
    NodeOpReach ns → unregisterNode ns i = Except.ok ns' → NodeOpReach ns'
| updStatus {ns : List Node} {i : String} {st : NodeStatus} {now : String} :
    NodeOpReach ns → NodeOpReach (updateNodeStatus ns i st now)
| drain {ns ns' : List Node} {i : String} {now : String} :
    NodeOpReach ns → drainNode ns i now = Except.ok ns' → NodeOpReach ns'
| activate {ns ns' : List Node} {i : String} {now : String} :
    NodeOpReach ns → activateNode ns i now = Except.ok ns' → NodeOpReach ns'
| updResources {ns ns' : List Node} {i : String} {r : Resources} {now : String} :
    NodeOpReach ns → updateNodeResources ns i r now = Except.ok ns' → NodeOpReach ns'

/-- The NodeManager machine without `UpdateNodeResources`, the one
mutation that bypasses validation. -/
inductive NodeOpReachSafe : List Node → Prop where
| init : NodeOpReachSafe []
| register {ns ns' : List Node} {n : Node} {now : String} :
    NodeOpReachSafe ns → registerNode ns n now = Except.ok ns' → NodeOpReachSafe ns'
| unregister {ns ns' : List Node} {i : String} :
    NodeOpReachSafe ns → unregisterNode ns i = Except.ok ns' → NodeOpReachSafe ns'
| updStatus {ns : List Node} {i : String} {st : NodeStatus} {now : String} :
    NodeOpReachSafe ns → NodeOpReachSafe (updateNodeStatus ns i st now)
| drain {ns ns' : List Node} {i : String} {now : String} :
    NodeOpReachSafe ns → drainNode ns i now = Except.ok ns' → NodeOpReachSafe ns'
| activate {ns ns' : List Node} {i : String} {now : String} :
    NodeOpReachSafe ns → activateNode ns i now = Except.ok ns' → NodeOpReachSafe ns'

/-- The per-task NodeID/status correspondence asserted by the spec,
rendered on observable states: on the automatic dispatch path a task's
status rests at Assigned, Running or Complete exactly while its `NodeID`
is set. -/
def TaskNodeInv (t : Task) : Prop :=
t.nodeID ≠ "" ↔ (t.status = TaskStatus.assigned ∨ t.status = TaskStatus.running ∨ t.status = TaskStatus.complete)

/-- The ids buffered in the dispatch queue and in detached retries. -/
def queuedIDs (s : TMState) : List String :=
(s.queue ++ s.pendingEnqueue).map (fun t => t.id)

/-- Inductive invariant for `ReachableD`: every stored task satisfies the
NodeID/status correspondence, every buffered task's registry entry is
still New with an empty NodeID, and buffered ids are pairwise distinct. -/
def InvD (s : TMState) : Prop :=
(∀ t ∈ s.tasks, TaskNodeInv t) ∧
(∀ q ∈ s.queue ++ s.pendingEnqueue, ∀ u ∈ s.tasks, u.id = q.id → u.status = TaskStatus.new ∧ u.nodeID = "") ∧
(queuedIDs s).Nodup

def wNodeM : Node :=
{ id := "m1", name := "manager-1", address := "10.0.0.1", port := 2377,
  role := NodeRole.manager, status := NodeStatus.active,
  resources := { cpu := 4000, memory := 8589934592, disk := 107374182400, gpu := 0 },
  lastSeen := "", createdAt := "", updatedAt := "", version := "" }

def wNodeW : Node :=
{ id := "w1", name := "worker-1", address := "10.0.0.2", port := 2376,
  role := NodeRole.worker, status := NodeStatus.ready,
  resources := { cpu := 2000, memory := 4294967296, disk := 53687091200, gpu := 0 },
  lastSeen := "", createdAt := "", updatedAt := "", version := "" }

/-- A second manager-role node, so a registry can hold a non-sole
manager. -/
def wMgr2 : Node := { wNodeM with id := "m2", name := "manager-2" }

def wTaskA : Task :=
{ id := "tA", name := "web", image := "nginx:latest", command := [], env := [],
  resources := { cpu := 1000, memory := 1073741824, disk := 0, gpu := 0 }, labels := [],
  status := TaskStatus.new, nodeID := "", desiredState := TaskStatus.running,
  createdAt := "", updatedAt := "", startedAt := "", completedAt := "",
  serviceID := "", slot := 0 }

def wTaskDone : Task :=
{ id := "tC", name := "batch", image := "alpine:3", command := [], env := [],
  resources := { cpu := 500, memory := 268435456, disk := 0, gpu := 0 }, labels := [],
  status := TaskStatus.complete, nodeID := "w1", desiredState := TaskStatus.running,
  createdAt := "T0", updatedAt := "T5", startedAt := "T1", completedAt := "T5",
  serviceID := "", slot := 0 }

/-- The spec-side reading of the `RestartTask` clone: the original task
with only the identity, status, desired state and created/updated
timestamps changed and the started/completed timestamps cleared — every
other field, `nodeID` included, left as in the original. -/
def cloneSpec (task : Task) (newID now : String) : Task :=
{ task with
  id := newID
  status := TaskStatus.new
  desiredState := TaskStatus.running
  createdAt := now
  updatedAt := now
  startedAt := ""
  completedAt := "" }

def wTaskRun : Task :=
{ id := "tR", name := "svc", image := "redis:7", command := ["redis-server"], env := ["A=1"],
  resources := { cpu := 700, memory := 536870912, disk := 0, gpu := 0 }, labels := [("tier", "db")],
  status := TaskStatus.running, nodeID := "w1", desiredState := TaskStatus.running,
  createdAt := "T0", updatedAt := "T2", startedAt := "T2", completedAt := "",
  serviceID := "svc1", slot := 3 }

/-- A one-task state holding the Running task `wTaskRun`. -/
def wStateRun : TMState := { tasks := [wTaskRun], queue := [], pendingEnqueue := [] }

def wTaskB : Task :=
{ id := "tB", name := "web2", image := "httpd:2", command := [], env := [],
  resources := { cpu := 250, memory := 134217728, disk := 0, gpu := 0 }, labels := [],
  status := TaskStatus.new, nodeID := "", desiredState := TaskStatus.running,
  createdAt := "", updatedAt := "", startedAt := "", completedAt := "",
  serviceID := "", slot := 0 }

/-- A dispatch queue at its full capacity of 1000 buffered tasks. -/
def wQueueFull : TMState :=
{ tasks := [], queue := List.replicate queueCapacity wTaskA, pendingEnqueue := [] }

def c5Node : Node :=
{ id := "n5", name := "node-5", address := "10.0.0.5", port := 2376,
  role := NodeRole.worker, status := NodeStatus.ready,
  resources := { cpu := 2000, memory := 4294967296, disk := 53687091200, gpu := 0 },
  lastSeen := "", createdAt := "", updatedAt := "", version := "" }

def c5Checks : List HealthCheck :=
[ { name := "api_connectivity", status := "failed", duration := 3000, message := "request failed" },
  { name := "resource_availability", status := "passed", duration := 1, message := "" },
  { name := "disk_space", status := "passed", duration := 1, message := "" },
  { name := "network_connectivity", status := "passed", duration := 1, message := "" } ]

def c9Good : Node :=
{ id := "n9", name := "node-9", address := "10.0.0.9", port := 2376,
  role := NodeRole.worker, status := NodeStatus.ready,
  resources := { cpu := 1000, memory := 1024, disk := 10, gpu := 0 },
  lastSeen := "", createdAt := "", updatedAt := "", version := "" }

def c9Reg1 : List Node :=
match registerNode [] c9Good "T1" with
| Except.ok ns => ns
| Except.error _ => []

def c9BadRes : Resources := { cpu := -1, memory := -1, disk := -1, gpu := 0 }

def c9Reg2 : List Node :=
match updateNodeResources c9Reg1 "n9" c9BadRes "T2" with
| Except.ok ns => ns
| Except.error _ => []

def c9BadNode : Node :=
{ c9Good with resources := c9BadRes, createdAt := "T1", updatedAt := "T2" }

def c9ZeroCPU : Node :=
{ c9Good with id := "nz", resources := { cpu := 0, memory := 1024, disk := 10, gpu := 0 } }

/-- A task value as a caller may submit it: `CreateTask` validates only
identity, name, image, cpu and memory, and never clears a caller-supplied
`NodeID`. -/
def c3Task : Task :=
{ id := "t0", name := "web", image := "nginx:latest", command := [], env := [],
  resources := { cpu := 1000, memory := 1024, disk := 0, gpu := 0 }, labels := [],
  status := TaskStatus.new, nodeID := "n1", desiredState := TaskStatus.running,
  createdAt := "", updatedAt := "", startedAt := "", completedAt := "",
  serviceID := "", slot := 0 }

def c3S0 : TMState := { tasks := [], queue := [], pendingEnqueue := [] }

def c3S1 : TMState :=
match createTask c3S0 c3Task "T1" with
| Except.ok s => s
| Except.error _ => c3S0

def c3S2 : TMState :=
match restartTask c3S1 "t0" "t1" "T2" with
| Except.ok s => s
| Except.error _ => c3S1

def c3Clone : Task :=
{ id := "t1", name := "web", image := "nginx:latest", command := [], env := [],
  resources := { cpu := 1000, memory := 1024, disk := 0, gpu := 0 }, labels := [],
  status := TaskStatus.new, nodeID := "n1", desiredState := TaskStatus.running,
  createdAt := "T2", updatedAt := "T2", startedAt := "", completedAt := "",
  serviceID := "", slot := 0 }

def wD1 : TMState :=
match createTask c3S0 wTaskB "T1" with
| Except.ok s => s
| Except.error _ => c3S0

/-- The Running tasks of a node, in registry order — the set
`HandleNodeFailure` restarts. -/
def runningOn (tasks : List Task) (nodeID : String) : List Task :=
(getTasksByNode tasks nodeID).filter (fun t => t.status == TaskStatus.running)

def c4Node : Node :=
{ id := "w1", name := "worker-1", address := "10.0.0.2", port := 2376,
  role := NodeRole.worker, status := NodeStatus.ready,
  resources := { cpu := 2000, memory := 4096, disk := 100, gpu := 0 },
  lastSeen := "", createdAt := "", updatedAt := "", version := "" }

def c4T1 : Task :=
{ id := "ta", name := "svc-a", image := "redis:7", command := [], env := [],
  resources := { cpu := 500, memory := 256, disk := 0, gpu := 0 }, labels := [],
  status := TaskStatus.running, nodeID := "w1", desiredState := TaskStatus.running,
  createdAt := "T0", updatedAt := "T1", startedAt := "T1", completedAt := "",
  serviceID := "", slot := 0 }

def c4T2 : Task := { c4T1 with id := "tb", name := "svc-b" }

def c4T3 : Task := { c4T1 with id := "tc", name := "svc-c", status := TaskStatus.complete, completedAt := "T2" }

def c4State : TMState := { tasks := [c4T1, c4T2, c4T3], queue := [], pendingEnqueue := [] }

theorem findTask_map_upd (ts : List Task) (k : String) (g : Task → Task)
    (hg : ∀ t : Task, t.id = k → (g t).id = k) :
    findTask (ts.map (fun t => if t.id == k then g t else t)) k = Option.map g (findTask ts k) := by
  induction ts with
  | nil => rfl
  | cons a l ih =>
    simp only [findTask] at ih ⊢
    by_cases h : a.id = k
    · have hga : (g a).id = k := hg a h
      rw [List.map_cons, if_pos (by simpa using h),
        List.find?_cons_of_pos _ (by simpa using hga),
        List.find?_cons_of_pos _ (by simpa using h)]
      rfl
    · rw [List.map_cons, if_neg (by simpa using h),
        List.find?_cons_of_neg _ (by simpa using h),
        List.find?_cons_of_neg _ (by simpa using h)]
      exact ih

theorem findTask_map_ne (ts : List Task) (k k' : String) (g : Task → Task)
    (hg : ∀ t : Task, t.id = k → (g t).id = k) (h : k' ≠ k) :
    findTask (ts.map (fun t => if t.id == k then g t else t)) k' = findTask ts k' := by
  induction ts with
  | nil => rfl
  | cons a l ih =>
    simp only [findTask] at ih ⊢
    by_cases ha : a.id = k
    · have hga : (g a).id = k := hg a ha
      have h1 : ¬ ((g a).id = k') := fun he => h (he.symm.trans hga)
      have h2 : ¬ (a.id = k') := fun he => h (he.symm.trans ha)
      rw [List.map_cons, if_pos (by simpa using ha),
        List.find?_cons_of_neg _ (by simpa using h1),
        List.find?_cons_of_neg _ (by simpa using h2)]
      exact ih
    · rw [List.map_cons, if_neg (by simpa using ha)]
      by_cases hk : a.id = k'
      · rw [List.find?_cons_of_pos _ (by simpa using hk),
          List.find?_cons_of_pos _ (by simpa using hk)]
      · rw [List.find?_cons_of_neg _ (by simpa using hk),
          List.find?_cons_of_neg _ (by simpa using hk)]
        exact ih

theorem findTask_append (ts us : List Task) (k : String) :
    findTask (ts ++ us) k = (findTask ts k).or (findTask us k) :=
  List.find?_append

theorem mem_of_findTask {ts : List Task} {k : String} {t : Task}
    (h : findTask ts k = some t) : t ∈ ts ∧ t.id = k :=
  ⟨List.mem_of_find?_eq_some h, by simpa using List.find?_some h⟩

theorem findTask_of_mem_nodup {ts : List Task} {t : Task}
    (hnd : (ts.map (fun u => u.id)).Nodup) (hm : t ∈ ts) :
    findTask ts t.id = some t := by
  induction ts with
  | nil => cases hm
  | cons a l ih =>
    simp only [List.map_cons, List.nodup_cons] at hnd
    rcases List.mem_cons.mp hm with h | h
    · subst h
      simp only [findTask]
      rw [List.find?_cons_of_pos _ (by simp)]
    · have hne : a.id ≠ t.id := by
        intro he
        exact hnd.1 (he ▸ List.mem_map_of_mem (fun u => u.id) h)
      simp only [findTask]
      rw [List.find?_cons_of_neg _ (by simpa using hne)]
      exact ih hnd.2 h

theorem upsertTask_fresh {ts : List Task} {t : Task}
    (h : ∀ u ∈ ts, u.id ≠ t.id) : upsertTask ts t = ts ++ [t] := by
  have hfalse : ts.any (fun u => u.id == t.id) = false := by
    simp only [List.any_eq_false]
    intro u hu
    simpa using h u hu
  simp [upsertTask, hfalse]

theorem findTask_upsert (ts : List Task) (t : Task) :
    findTask (upsertTask ts t) t.id = some t := by
  by_cases h : ts.any (fun u => u.id == t.id) = true
  · simp only [upsertTask, h, if_true]
    rw [findTask_map_upd ts t.id (fun _ => t) (fun _ _ => rfl)]
    rcases List.any_eq_true.mp h with ⟨u, hu, hids⟩
    have hsome : (findTask ts t.id).isSome := by
      simp only [findTask, List.find?_isSome]
      exact ⟨u, hu, hids⟩
    rcases Option.isSome_iff_exists.mp hsome with ⟨v, hv⟩
    rw [hv]
    rfl
  · have hfalse : ts.any (fun u => u.id == t.id) = false := by
      simpa using h
    have hnone : findTask ts t.id = none := by
      simp only [findTask, List.find?_eq_none]
      intro x hx
      exact List.any_eq_false.mp hfalse x hx
    simp only [upsertTask, hfalse, Bool.false_eq_true, if_false]
    rw [findTask_append, hnone]
    simp only [Option.or]
    simp [findTask]

theorem findTask_upsert_ne (ts : List Task) (t : Task) {k : String} (h : k ≠ t.id) :
    findTask (upsertTask ts t) k = findTask ts k := by
  by_cases ha : ts.any (fun u => u.id == t.id) = true
  · simp only [upsertTask, ha, if_true]
    exact findTask_map_ne ts t.id k (fun _ => t) (fun _ _ => rfl) h
  · have hfalse : ts.any (fun u => u.id == t.id) = false := by simpa using ha
    simp only [upsertTask, hfalse, Bool.false_eq_true, if_false]
    rw [findTask_append]
    cases hc : findTask ts k with
    | some v => rfl
    | none =>
      simp only [Option.or]
      have hne : ¬ (t.id = k) := fun he => h he.symm
      simp [findTask, hne]

/-- C1: `SelectNodeForTask` considers exactly the nodes whose status is
ready or active and whose capacity is at least the task's request on cpu,
memory and disk simultaneously, and it returns the no-capacity error if
and only if that candidate set is empty. -/
theorem selectNodeForTask_candidates_and_error (nodes : List Node) (task : Task) :
    (∀ n : Node, n ∈ candidateNodes nodes task ↔
      (n ∈ nodes ∧ (n.status = NodeStatus.ready ∨ n.status = NodeStatus.active) ∧
        task.resources.cpu ≤ n.resources.cpu ∧ task.resources.memory ≤ n.resources.memory ∧
        task.resources.disk ≤ n.resources.disk)) ∧
    (isErr (selectNodeForTask nodes task) = true ↔ candidateNodes nodes task = []) := by
  constructor
  · intro n
    simp [candidateNodes, List.mem_filter, nodeHasCapacity, Bool.and_eq_true,
      Bool.or_eq_true, beq_iff_eq, decide_eq_true_iff, ge_iff_le, and_assoc]
  · by_cases hc : candidateNodes nodes task = []
    · simp [selectNodeForTask, hc, isErr]
    · have hlen : ¬ (candidateNodes nodes task).length = 0 := by
        simpa [List.length_eq_zero] using hc
      simp [selectNodeForTask, hlen, isErr, hc]

theorem selectLoop_spec (task : Task) :
    ∀ (l : List Node) (best : Option Node) (bs : ℚ),
      bs ≤ (selectLoop task l best bs).2 ∧
      (∀ n ∈ l, nodeScore n task ≤ (selectLoop task l best bs).2) ∧
      ((selectLoop task l best bs).1 = best ∧ (selectLoop task l best bs).2 = bs ∨
        ∃ n ∈ l, (selectLoop task l best bs).1 = some n ∧
          (selectLoop task l best bs).2 = nodeScore n task)
  | [], best, bs => by simp [selectLoop]
  | node :: rest, best, bs => by
    by_cases h : bs < nodeScore node task
    · have ih := selectLoop_spec task rest (some node) (nodeScore node task)
      simp only [selectLoop, if_pos h]
      refine ⟨le_trans (le_of_lt h) ih.1, ?_, ?_⟩
      · intro n hn
        rcases List.mem_cons.mp hn with rfl | hn'
        · exact ih.1
        · exact ih.2.1 n hn'
      · rcases ih.2.2 with ⟨h1, h2⟩ | ⟨m, hm, h1, h2⟩
        · exact Or.inr ⟨node, List.mem_cons_self _ _, h1, h2⟩
        · exact Or.inr ⟨m, List.mem_cons_of_mem _ hm, h1, h2⟩
    · have ih := selectLoop_spec task rest best bs
      simp only [selectLoop, if_neg h]
      push_neg at h
      refine ⟨ih.1, ?_, ?_⟩
      · intro n hn
        rcases List.mem_cons.mp hn with rfl | hn'
        · exact le_trans h ih.1
        · exact ih.2.1 n hn'
      · rcases ih.2.2 with h' | ⟨m, hm, h1, h2⟩
        · exact Or.inl h'
        · exact Or.inr ⟨m, List.mem_cons_of_mem _ hm, h1, h2⟩

theorem nodeScore_nonneg {nodes : List Node} {task : Task} {m : Node}
    (hpos : ∀ n ∈ nodes, 0 < n.resources.cpu ∧ 0 < n.resources.memory)
    (hm : m ∈ candidateNodes nodes task) : 0 ≤ nodeScore m task := by
  obtain ⟨hmn, hp⟩ := List.mem_filter.mp hm
  obtain ⟨hcpu, hmem⟩ := hpos m hmn
  have hcap : nodeHasCapacity m task = true := ((Bool.and_eq_true _ _).mp hp).2
  simp only [nodeHasCapacity, Bool.and_eq_true, decide_eq_true_iff] at hcap
  obtain ⟨⟨h1, h2⟩, h3⟩ := hcap
  have hc1 : (0 : ℚ) ≤ ((m.resources.cpu : ℚ) - (task.resources.cpu : ℚ)) / (m.resources.cpu : ℚ) := by
    apply div_nonneg
    · rw [sub_nonneg]
      exact_mod_cast h1
    · exact_mod_cast le_of_lt hcpu
  have hc2 : (0 : ℚ) ≤ ((m.resources.memory : ℚ) - (task.resources.memory : ℚ)) / (m.resources.memory : ℚ) := by
    apply div_nonneg
    · rw [sub_nonneg]
      exact_mod_cast h2
    · exact_mod_cast le_of_lt hmem
  have : (0 : ℚ) ≤ (((m.resources.cpu : ℚ) - (task.resources.cpu : ℚ)) / (m.resources.cpu : ℚ) +
      ((m.resources.memory : ℚ) - (task.resources.memory : ℚ)) / (m.resources.memory : ℚ)) / 2 := by
    apply div_nonneg (add_nonneg hc1 hc2)
    norm_num
  simpa [nodeScore] using this

/-- C2: whenever the candidate set of `SelectNodeForTask` is non-empty
(over a registry of validated nodes, whose cpu and memory are positive),
the node returned is a candidate whose slack score is maximal among all
candidates. -/
theorem selectNodeForTask_max_score (nodes : List Node) (task : Task)
    (hpos : ∀ n ∈ nodes, 0 < n.resources.cpu ∧ 0 < n.resources.memory)
    (hne : candidateNodes nodes task ≠ []) :
    ∃ b, selectNodeForTask nodes task = Except.ok (some b) ∧
      b ∈ candidateNodes nodes task ∧
      ∀ m ∈ candidateNodes nodes task, nodeScore m task ≤ nodeScore b task := by
  have hlen : ¬ (candidateNodes nodes task).length = 0 := by
    simpa [List.length_eq_zero] using hne
  have spec := selectLoop_spec task (candidateNodes nodes task) none (-1)
  obtain ⟨c0, hc0⟩ := List.exists_mem_of_ne_nil _ hne
  rcases spec.2.2 with ⟨_, h2⟩ | ⟨b, hb, h1, h2⟩
  · exfalso
    have hle := spec.2.1 c0 hc0
    rw [h2] at hle
    have := le_trans (nodeScore_nonneg hpos hc0) hle
    norm_num at this
  · refine ⟨b, ?_, hb, ?_⟩
    · simp only [selectNodeForTask, selectNodeByResources]
      rw [if_neg hlen, h1]
    · intro m hm
      have := spec.2.1 m hm
      rwa [h2] at this

/-- Witness for C2: at the Scenario A registry both nodes qualify and the
selected node maximizes the slack score. -/
theorem selectNodeForTask_max_score_witness :
    (∀ n ∈ [wNodeM, wNodeW], 0 < n.resources.cpu ∧ 0 < n.resources.memory) ∧
    candidateNodes [wNodeM, wNodeW] wTaskA ≠ [] ∧
    ∃ b, selectNodeForTask [wNodeM, wNodeW] wTaskA = Except.ok (some b) ∧
      b ∈ candidateNodes [wNodeM, wNodeW] wTaskA ∧
      ∀ m ∈ candidateNodes [wNodeM, wNodeW] wTaskA, nodeScore m wTaskA ≤ nodeScore b wTaskA :=
  ⟨by decide, by decide,
    selectNodeForTask_max_score [wNodeM, wNodeW] wTaskA (by decide) (by decide)⟩

/-- C7 (code bug): `UnregisterNode` holds the registry's write lock for
its whole body, and its manager branch calls `GetManagerNodes`, which
acquires a read lock on the same non-reentrant `sync.RWMutex`; under the
held write lock that acquisition never succeeds.  So on any manager-role
node — the sole manager included — the call never returns: neither the
promised last-manager constraint error nor the immediate removal
happens.  At the failing inputs: on a two-manager registry, where the
claim promises immediate removal of the non-sole manager, and on a
sole-manager registry, where it promises the constraint error, the call
diverges; a worker node is removed as the claim describes. -/
theorem unregisterNode_manager_deadlock :
    (wMgr2.role = NodeRole.manager ∧ (getManagerNodes [wNodeM, wMgr2]).length = 2 ∧
      unregisterNodeExec [wNodeM, wMgr2] "m2" = none) ∧
    ((getManagerNodes [wNodeM]).length = 1 ∧ unregisterNodeExec [wNodeM] "m1" = none) ∧
    (unregisterNodeExec [wNodeM, wNodeW] "w1" =
        some (Except.ok ([wNodeM, wNodeW].filter (fun n => !(n.id == "w1")))) ∧
      findNode ([wNodeM, wNodeW].filter (fun n => !(n.id == "w1"))) "w1" = none) :=
  ⟨⟨rfl, rfl, rfl⟩, ⟨rfl, rfl⟩, rfl, rfl⟩

/-- C8: `RemoveTask` fails exactly when the task is Running (producing no
new registry, so the stored task is unchanged), and deletes the task for
every other status. -/
theorem removeTask_running_guard (tasks : List Task) (taskID : String) (t : Task)
    (hfind : findTask tasks taskID = some t) :
    (t.status = TaskStatus.running →
        removeTask tasks taskID = Except.error "cannot remove running task") ∧
    (t.status ≠ TaskStatus.running →
        removeTask tasks taskID = Except.ok (tasks.filter (fun u => !(u.id == taskID))) ∧
        findTask (tasks.filter (fun u => !(u.id == taskID))) taskID = none) := by
  constructor
  · intro h
    simp only [removeTask, hfind]
    rw [if_pos h]
  · intro h
    simp only [removeTask, hfind]
    rw [if_neg h]
    refine ⟨rfl, ?_⟩
    simp only [findTask, List.find?_eq_none]
    intro x hx
    have := (List.mem_filter.mp hx).2
    simp only [Bool.not_eq_true'] at this
    simp [this]

/-- Witness for C8 at a Complete task: removal succeeds and the task is
gone. -/
theorem removeTask_running_guard_witness :
    (wTaskDone.status = TaskStatus.running →
        removeTask [wTaskDone] "tC" = Except.error "cannot remove running task") ∧
    (wTaskDone.status ≠ TaskStatus.running →
        removeTask [wTaskDone] "tC" = Except.ok ([wTaskDone].filter (fun u => !(u.id == "tC"))) ∧
        findTask ([wTaskDone].filter (fun u => !(u.id == "tC"))) "tC" = none) :=
  removeTask_running_guard [wTaskDone] "tC" wTaskDone (by decide)

/-- C10: the clone produced by a successful `RestartTask` differs from the
original only in identity, status (New), desired state (Running), the
created/updated timestamps and the cleared started/completed timestamps;
every other field — the assigned `NodeID` included — is copied unchanged,
and the clone is stored under the fresh identity and enqueued. -/
theorem restartTask_clone_frame (s : TMState) (taskID newID now : String) (task : Task)
    (hfind : findTask s.tasks taskID = some task) :
    ∃ s', restartTask s taskID newID now = Except.ok s' ∧
      findTask s'.tasks newID = some (cloneTask task newID now) ∧
      cloneTask task newID now = cloneSpec task newID now ∧
      (cloneTask task newID now).nodeID = task.nodeID ∧
      cloneTask task newID now ∈ s'.queue := by
  refine ⟨restartedState s taskID task newID now, ?_, ?_, rfl, rfl, ?_⟩
  · simp only [restartTask, hfind]
  · exact findTask_upsert _ (cloneTask task newID now)
  · simp [restartedState]

/-- Witness for C10 at a Running task with an assigned node. -/
theorem restartTask_clone_frame_witness :
    ∃ s', restartTask wStateRun "tR" "tR2" "T9" = Except.ok s' ∧
      findTask s'.tasks "tR2" = some (cloneTask wTaskRun "tR2" "T9") ∧
      cloneTask wTaskRun "tR2" "T9" = cloneSpec wTaskRun "tR2" "T9" ∧
      (cloneTask wTaskRun "tR2" "T9").nodeID = wTaskRun.nodeID ∧
      cloneTask wTaskRun "tR2" "T9" ∈ s'.queue :=
  restartTask_clone_frame wStateRun "tR" "tR2" "T9" wTaskRun (by decide)

/-- C6: for a valid task, `CreateTask` succeeds and stores the task with
status New, desired state Running and fresh timestamps, and it succeeds in
exactly the same way when the dispatch queue is at capacity — the caller
is never blocked, the enqueue is deferred to a detached retry. -/
theorem createTask_valid_never_blocks (s : TMState) (task : Task) (now : String)
    (hval : validateTask task = Except.ok ()) :
    ∃ s', createTask s task now = Except.ok s' ∧
      findTask s'.tasks task.id = some (initializedTask task now) ∧
      (s.queue.length < queueCapacity →
        s'.queue = s.queue ++ [initializedTask task now] ∧
        s'.pendingEnqueue = s.pendingEnqueue) ∧
      (queueCapacity ≤ s.queue.length →
        s'.queue = s.queue ∧ initializedTask task now ∈ s'.pendingEnqueue) := by
  by_cases hq : s.queue.length < queueCapacity
  · refine ⟨{ s with tasks := upsertTask s.tasks (initializedTask task now), queue := s.queue ++ [initializedTask task now] }, ?_, ?_, fun _ => ⟨rfl, rfl⟩, fun hge => absurd hq (by omega)⟩
    · simp only [createTask, hval]
      rw [if_pos hq]
    · exact findTask_upsert _ _
  · refine ⟨{ s with tasks := upsertTask s.tasks (initializedTask task now), pendingEnqueue := s.pendingEnqueue ++ [initializedTask task now] }, ?_, ?_, fun hlt => absurd hlt hq, fun _ => ⟨rfl, ?_⟩⟩
    · simp only [createTask, hval]
      rw [if_neg hq]
    · exact findTask_upsert _ _
    · simp

/-- Witness for C6 at a full queue: creation still succeeds, the queue is
untouched and the enqueue is deferred. -/
theorem createTask_valid_never_blocks_witness :
    validateTask wTaskB = Except.ok () ∧
    (∃ s', createTask wQueueFull wTaskB "T1" = Except.ok s' ∧
      findTask s'.tasks wTaskB.id = some (initializedTask wTaskB "T1") ∧
      (wQueueFull.queue.length < queueCapacity →
        s'.queue = wQueueFull.queue ++ [initializedTask wTaskB "T1"] ∧
        s'.pendingEnqueue = wQueueFull.pendingEnqueue) ∧
      (queueCapacity ≤ wQueueFull.queue.length →
        s'.queue = wQueueFull.queue ∧ initializedTask wTaskB "T1" ∈ s'.pendingEnqueue)) :=
  ⟨rfl, createTask_valid_never_blocks wQueueFull wTaskB "T1" rfl⟩

/-- Counterexample to C5: for a Ready node whose probes aggregate to Down,
the health-check pass does write the Down status, but the list of
failure-handling invocations it performs is empty — `checkNodeHealth`
never calls `HandleNodeFailure`, against the claim. -/
theorem checkNodeHealth_no_failover_counterexample :
    c5Node.status = NodeStatus.ready ∧
    calculateOverallHealth c5Checks = NodeStatus.down ∧
    (checkNodeHealth c5Node c5Checks).statusUpdate = some NodeStatus.down ∧
    (checkNodeHealth c5Node c5Checks).failureInvocations = [] := by
  refine ⟨rfl, by decide, by decide, by decide⟩

/-- C5 (amended): a health pass whose probes aggregate to Down writes the
Down status (whatever the previous status), a Down node whose probes
aggregate to Ready is recovered to Ready, and no failure-handling path is
ever invoked by the health check. -/
theorem checkNodeHealth_status_updates (node : Node) (checks : List HealthCheck) :
    (calculateOverallHealth checks = NodeStatus.down →
        (checkNodeHealth node checks).statusUpdate = some NodeStatus.down) ∧
    (node.status = NodeStatus.down → calculateOverallHealth checks = NodeStatus.ready →
        (checkNodeHealth node checks).statusUpdate = some NodeStatus.ready) ∧
    (checkNodeHealth node checks).failureInvocations = [] := by
  refine ⟨?_, ?_, ?_⟩
  · intro h
    simp [checkNodeHealth, h]
  · intro hn h
    by_cases hd : calculateOverallHealth checks = NodeStatus.down
    · rw [hd] at h
      cases h
    · simp [checkNodeHealth, hd, hn, h]
  · by_cases hd : calculateOverallHealth checks = NodeStatus.down
    · simp [checkNodeHealth, hd]
    · by_cases hr : node.status = NodeStatus.down ∧ calculateOverallHealth checks = NodeStatus.ready
      · simp [checkNodeHealth, hd, hr]
      · simp [checkNodeHealth, hd, hr]

/-- Witness for C5 (amended): a Down node with all probes passing is
recovered to Ready, with no failure-handling invocation. -/
theorem checkNodeHealth_status_updates_witness :
    (calculateOverallHealth c5Checks.tail = NodeStatus.down →
        (checkNodeHealth { c5Node with status := NodeStatus.down } c5Checks.tail).statusUpdate
          = some NodeStatus.down) ∧
    ({ c5Node with status := NodeStatus.down }.status = NodeStatus.down →
        calculateOverallHealth c5Checks.tail = NodeStatus.ready →
        (checkNodeHealth { c5Node with status := NodeStatus.down } c5Checks.tail).statusUpdate
          = some NodeStatus.ready) ∧
    (checkNodeHealth { c5Node with status := NodeStatus.down } c5Checks.tail).failureInvocations = [] :=
  checkNodeHealth_status_updates { c5Node with status := NodeStatus.down } c5Checks.tail

theorem validateNode_ok_all {n : Node} (h : validateNode n = Except.ok ()) :
    n.id ≠ "" ∧ n.name ≠ "" ∧ n.address ≠ "" ∧ 0 < n.port ∧ n.port ≤ 65535 ∧
    (n.role = NodeRole.manager ∨ n.role = NodeRole.worker ∨ n.role = NodeRole.agent) ∧
    0 < n.resources.cpu ∧ 0 < n.resources.memory ∧ 0 < n.resources.disk := by
  simp only [validateNode] at h
  split_ifs at h with h1 h2 h3 h4 h5 h6 h7 h8
  push_neg at h4
  have hrole : n.role = NodeRole.manager ∨ n.role = NodeRole.worker ∨ n.role = NodeRole.agent := by
    tauto
  exact ⟨h1, h2, h3, by omega, h4.2, hrole, by omega, by omega, by omega⟩

theorem validateNode_timestamps (n : Node) (c u : String) :
    validateNode { n with createdAt := c, updatedAt := u } = validateNode n := rfl

theorem mem_upsertNode {ns : List Node} {n u : Node} (h : u ∈ upsertNode ns n) :
    u ∈ ns ∨ u = n := by
  simp only [upsertNode] at h
  split_ifs at h with hc
  · rcases List.mem_map.mp h with ⟨v, hv, hvu⟩
    by_cases hid : v.id = n.id
    · right
      rw [← hvu, if_pos (by simpa using hid)]
    · left
      rw [← hvu, if_neg (by simpa using hid)]
      exact hv
  · rcases List.mem_append.mp h with h | h
    · exact Or.inl h
    · exact Or.inr (by simpa using h)

theorem registerNode_ok_inv {ns ns' : List Node} {node : Node} {now : String}
    (h : registerNode ns node now = Except.ok ns') :
    ∃ node' : Node, validateNode node' = Except.ok () ∧ node'.resources = node.resources ∧
      ns' = upsertNode ns node' := by
  simp only [registerNode] at h
  cases hfind : findNode ns node.id with
  | some ex =>
    simp only [hfind] at h
    cases hv : validateNode { node with createdAt := ex.createdAt, updatedAt := now } with
    | error e =>
      simp only [hv] at h
      simp at h
    | ok u =>
      cases u
      simp only [hv] at h
      cases h
      exact ⟨_, hv, rfl, rfl⟩
  | none =>
    simp only [hfind] at h
    cases hv : validateNode { node with createdAt := now, updatedAt := now } with
    | error e =>
      simp only [hv] at h
      simp at h
    | ok u =>
      cases u
      simp only [hv] at h
      cases h
      exact ⟨_, hv, rfl, rfl⟩

theorem unregisterNode_ok_sub {ns ns' : List Node} {i : String}
    (h : unregisterNode ns i = Except.ok ns') : ∀ u ∈ ns', u ∈ ns := by
  simp only [unregisterNode] at h
  cases hfind : findNode ns i with
  | none =>
    simp only [hfind] at h
    simp at h
  | some nd =>
    simp only [hfind] at h
    split_ifs at h with hc
    cases h
    intro u hu
    exact (List.mem_filter.mp hu).1

theorem updateNodeStatus_resources {ns : List Node} {i : String} {st : NodeStatus} {now : String} :
    ∀ u ∈ updateNodeStatus ns i st now, ∃ v ∈ ns, u.resources = v.resources := by
  intro u hu
  rcases List.mem_map.mp hu with ⟨v, hv, hvu⟩
  refine ⟨v, hv, ?_⟩
  rw [← hvu]
  by_cases hid : v.id = i
  · rw [if_pos (by simpa using hid)]
  · rw [if_neg (by simpa using hid)]

theorem drainNode_ok_resources {ns ns' : List Node} {i : String} {now : String}
    (h : drainNode ns i now = Except.ok ns') :
    ∀ u ∈ ns', ∃ v ∈ ns, u.resources = v.resources := by
  simp only [drainNode] at h
  cases hfind : findNode ns i with
  | none =>
    simp only [hfind] at h
    simp at h
  | some nd =>
    simp only [hfind] at h
    split_ifs at h with hc
    cases h
    intro u hu
    rcases List.mem_map.mp hu with ⟨v, hv, hvu⟩
    refine ⟨v, hv, ?_⟩
    rw [← hvu]
    by_cases hid : v.id = i
    · rw [if_pos (by simpa using hid)]
    · rw [if_neg (by simpa using hid)]

theorem activateNode_ok_resources {ns ns' : List Node} {i : String} {now : String}
    (h : activateNode ns i now = Except.ok ns') :
    ∀ u ∈ ns', ∃ v ∈ ns, u.resources = v.resources := by
  simp only [activateNode] at h
  cases hfind : findNode ns i with
  | none =>
    simp only [hfind] at h
    simp at h
  | some nd =>
    simp only [hfind] at h
    cases h
    intro u hu
    rcases List.mem_map.mp hu with ⟨v, hv, hvu⟩
    refine ⟨v, hv, ?_⟩
    rw [← hvu]
    by_cases hid : v.id = i
    · rw [if_pos (by simpa using hid)]
    · rw [if_neg (by simpa using hid)]

/-- Every node stored in a registry reachable without
`UpdateNodeResources` has strictly positive cpu, memory and disk. -/
theorem nodeOpReachSafe_pos {ns : List Node} (h : NodeOpReachSafe ns) :
    ∀ n ∈ ns, 0 < n.resources.cpu ∧ 0 < n.resources.memory ∧ 0 < n.resources.disk := by
  induction h with
  | init => simp
  | register _ hok ih =>
    obtain ⟨node', hval, hres, hns⟩ := registerNode_ok_inv hok
    intro n hn
    rw [hns] at hn
    rcases mem_upsertNode hn with hmem | hEq
    · exact ih n hmem
    · subst hEq
      have hall := validateNode_ok_all hval
      exact ⟨hall.2.2.2.2.2.2.1, hall.2.2.2.2.2.2.2.1, hall.2.2.2.2.2.2.2.2⟩
  | unregister _ hok ih =>
    intro n hn
    exact ih n (unregisterNode_ok_sub hok n hn)
  | updStatus _ ih =>
    intro n hn
    obtain ⟨v, hv, hres⟩ := updateNodeStatus_resources n hn
    rw [hres]
    exact ih v hv
  | drain _ hok ih =>
    intro n hn
    obtain ⟨v, hv, hres⟩ := drainNode_ok_resources hok n hn
    rw [hres]
    exact ih v hv
  | activate _ hok ih =>
    intro n hn
    obtain ⟨v, hv, hres⟩ := activateNode_ok_resources hok n hn
    rw [hres]
    exact ih v hv

/-- C9 (amended): `RegisterNode` rejects any node violating the contract
(non-positive resources in particular), and over any sequence of
NodeManager operations that does not include `UpdateNodeResources` every
listed node has strictly positive cpu, memory and disk.
`UpdateNodeResources` itself performs no validation and breaks the
invariant (see the counterexample). -/
theorem registerNode_validation_and_invariant :
    (∀ (nodes : List Node) (node : Node) (now : String),
      (node.resources.cpu ≤ 0 ∨ node.resources.memory ≤ 0 ∨ node.resources.disk ≤ 0 ∨
        node.id = "" ∨ node.name = "" ∨ node.address = "" ∨ node.port ≤ 0 ∨ node.port > 65535 ∨
        (node.role ≠ NodeRole.manager ∧ node.role ≠ NodeRole.worker ∧ node.role ≠ NodeRole.agent)) →
      isErr (registerNode nodes node now) = true) ∧
    (∀ ns : List Node, NodeOpReachSafe ns →
      ∀ n ∈ listNodes ns, 0 < n.resources.cpu ∧ 0 < n.resources.memory ∧ 0 < n.resources.disk) := by
  constructor
  · intro nodes node now hbad
    have hne : ∀ (c u : String), validateNode { node with createdAt := c, updatedAt := u } ≠ Except.ok () := by
      intro c u hok
      rw [validateNode_timestamps] at hok
      have hall := validateNode_ok_all hok
      rcases hbad with h | h | h | h | h | h | h | h | h
      · exact absurd hall.2.2.2.2.2.2.1 (by omega)
      · exact absurd hall.2.2.2.2.2.2.2.1 (by omega)
      · exact absurd hall.2.2.2.2.2.2.2.2 (by omega)
      · exact hall.1 h
      · exact hall.2.1 h
      · exact hall.2.2.1 h
      · exact absurd hall.2.2.2.1 (by omega)
      · exact absurd hall.2.2.2.2.1 (by omega)
      · rcases hall.2.2.2.2.2.1 with hr | hr | hr <;> tauto
    simp only [registerNode]
    cases hfind : findNode nodes node.id with
    | some ex =>
      cases hv : validateNode { node with createdAt := ex.createdAt, updatedAt := now } with
      | error e => simp [isErr, hv]
      | ok u =>
        cases u
        exact absurd hv (hne _ _)
    | none =>
      cases hv : validateNode { node with createdAt := now, updatedAt := now } with
      | error e => simp [isErr, hv]
      | ok u =>
        cases u
        exact absurd hv (hne _ _)
  · intro ns h n hn
    exact nodeOpReachSafe_pos h n hn

/-- Counterexample to C9: registering a valid node and then calling
`UpdateNodeResources` with negative quantities yields a reachable
registry whose listing contains a node with cpu, memory and disk all
non-positive — `UpdateNodeResources` performs no validation. -/
theorem nodeRegistry_positivity_counterexample :
    NodeOpReach c9Reg2 ∧ c9BadNode ∈ listNodes c9Reg2 ∧
    c9BadNode.resources.cpu ≤ 0 ∧ c9BadNode.resources.memory ≤ 0 ∧
    c9BadNode.resources.disk ≤ 0 := by
  refine ⟨?_, by decide, by decide, by decide, by decide⟩
  have e1 : registerNode [] c9Good "T1" = Except.ok c9Reg1 := rfl
  have h1 : NodeOpReach c9Reg1 := NodeOpReach.register NodeOpReach.init e1
  have e2 : updateNodeResources c9Reg1 "n9" c9BadRes "T2" = Except.ok c9Reg2 := rfl
  exact NodeOpReach.updResources h1 e2

/-- Witness for C9 (amended): a cpu=0 registration is rejected, and a
registry reached by one valid registration lists only positive-resource
nodes. -/
theorem registerNode_validation_and_invariant_witness :
    isErr (registerNode [] c9ZeroCPU "T1") = true ∧
    (∀ n ∈ listNodes c9Reg1, 0 < n.resources.cpu ∧ 0 < n.resources.memory ∧ 0 < n.resources.disk) :=
  ⟨registerNode_validation_and_invariant.1 [] c9ZeroCPU "T1" (by decide),
   registerNode_validation_and_invariant.2 c9Reg1 (by
      have e1 : registerNode [] c9Good "T1" = Except.ok c9Reg1 := rfl
      exact NodeOpReachSafe.register NodeOpReachSafe.init e1)⟩

theorem findTask_mapUpd (ts : List Task) (k : String) (g : Task → Task)
    (hg : ∀ t : Task, t.id = k → (g t).id = k) :
    findTask (mapUpd ts k g) k = Option.map g (findTask ts k) :=
  findTask_map_upd ts k g hg

theorem findTask_mapUpd_ne (ts : List Task) (k k' : String) (g : Task → Task)
    (hg : ∀ t : Task, t.id = k → (g t).id = k) (h : k' ≠ k) :
    findTask (mapUpd ts k g) k' = findTask ts k' :=
  findTask_map_ne ts k k' g hg h

theorem mapUpd_comp (ts : List Task) (k : String) (g1 g2 : Task → Task)
    (hg1 : ∀ t : Task, t.id = k → (g1 t).id = k) :
    mapUpd (mapUpd ts k g1) k g2 = mapUpd ts k (fun t => g2 (g1 t)) := by
  simp only [mapUpd, List.map_map]
  apply List.map_congr_left
  intro t _
  by_cases h : t.id = k
  · simp [Function.comp, h, hg1 t h]
  · simp [Function.comp, h]

theorem mem_mapUpd {ts : List Task} {k : String} {g : Task → Task} {v : Task}
    (h : v ∈ mapUpd ts k g) :
    ∃ u ∈ ts, (u.id = k ∧ v = g u) ∨ (¬ u.id = k ∧ v = u) := by
  rcases List.mem_map.mp h with ⟨u, hu, huu⟩
  refine ⟨u, hu, ?_⟩
  by_cases hid : u.id = k
  · exact Or.inl ⟨hid, by rw [← huu, if_pos (by simpa using hid)]⟩
  · exact Or.inr ⟨hid, by rw [← huu, if_neg (by simpa using hid)]⟩

/-- Counterexample to C3: `CreateTask` accepts a task whose `NodeID` is
already set (it validates only id, name, image, cpu, memory, and resets
only status/desired/timestamps), storing it with status New and a
non-empty `NodeID`; restarting it then stores a clone that likewise has
status New with the inherited non-empty `NodeID` — against the claimed
equivalence, on two of the operations it itself lists. -/
theorem task_nodeID_iff_status_counterexample :
    Reachable c3S2 ∧
    findTask c3S2.tasks "t0" = some { c3Task with createdAt := "T1", updatedAt := "T2", desiredState := TaskStatus.complete } ∧
    findTask c3S2.tasks "t1" = some c3Clone ∧
    c3Clone.status = TaskStatus.new ∧ c3Clone.nodeID = "n1" := by
  refine ⟨?_, by decide, by decide, by decide, by decide⟩
  have e1 : createTask c3S0 c3Task "T1" = Except.ok c3S1 := rfl
  have h1 : Reachable c3S1 := Reachable.create Reachable.init e1
  have e2 : restartTask c3S1 "t0" "t1" "T2" = Except.ok c3S2 := rfl
  exact Reachable.restart h1 (by decide) e2

theorem selectNodeForTask_ok_some_mem {nodes : List Node} {t : Task} {node : Node}
    (h : selectNodeForTask nodes t = Except.ok (some node)) : node ∈ nodes := by
  simp only [selectNodeForTask] at h
  split_ifs at h with hlen
  have hsome : selectNodeByResources (candidateNodes nodes t) t = some node := Except.ok.inj h
  have spec := selectLoop_spec t (candidateNodes nodes t) none (-1)
  rcases spec.2.2 with ⟨h1, _⟩ | ⟨m, hm, h1, _⟩
  · rw [selectNodeByResources, h1] at hsome
    cases hsome
  · rw [selectNodeByResources, h1] at hsome
    have hmn : m = node := Option.some.inj hsome
    subst hmn
    exact (List.mem_filter.mp hm).1

theorem invD_init : InvD { tasks := [], queue := [], pendingEnqueue := [] } :=
  ⟨by simp, by simp, by simp [queuedIDs]⟩

theorem invD_create {s s' : TMState} {t : Task} {now : String}
    (hinv : InvD s) (hnode : t.nodeID = "")
    (hft : ∀ u ∈ s.tasks, u.id ≠ t.id)
    (hfq : ∀ u ∈ s.queue ++ s.pendingEnqueue, u.id ≠ t.id)
    (hok : createTask s t now = Except.ok s') : InvD s' := by
  obtain ⟨hT, hQ, hN⟩ := hinv
  simp only [createTask] at hok
  cases hv : validateTask t with
  | error e =>
    simp only [hv] at hok
    simp at hok
  | ok u =>
    cases u
    simp only [hv] at hok
    have hup : upsertTask s.tasks (initializedTask t now) = s.tasks ++ [initializedTask t now] :=
      upsertTask_fresh (fun v hv' => hft v hv')
    have hTnew : TaskNodeInv (initializedTask t now) := by
      simp [TaskNodeInv, initializedTask, hnode]
    have hmemN : ∀ l : List Task, t.id ∉ l.map (fun v => v.id) → (∀ v ∈ l, v.id ≠ t.id) := by
      intro l hl v hv' he
      exact hl (he ▸ List.mem_map_of_mem (fun v => v.id) hv')
    have hTasks : ∀ v ∈ s.tasks ++ [initializedTask t now], TaskNodeInv v := by
      intro v hv'
      rcases List.mem_append.mp hv' with h | h
      · exact hT v h
      · have hveq : v = initializedTask t now := by simpa using h
        rw [hveq]
        exact hTnew
    have hQmain : ∀ (q : Task), (q ∈ s.queue ++ s.pendingEnqueue ∨ q = initializedTask t now) →
        ∀ v ∈ s.tasks ++ [initializedTask t now], v.id = q.id →
        v.status = TaskStatus.new ∧ v.nodeID = "" := by
      intro q hqd v hv' hid
      rcases hqd with hqo | hqe
      · rcases List.mem_append.mp hv' with h | h
        · exact hQ q hqo v h hid
        · have hveq : v = initializedTask t now := by simpa using h
          exfalso
          apply hfq q hqo
          rw [← hid, hveq]
          rfl
      · subst hqe
        rcases List.mem_append.mp hv' with h | h
        · exact absurd hid (hft v h)
        · have hveq : v = initializedTask t now := by simpa using h
          rw [hveq]
          exact ⟨rfl, hnode⟩
    have hNotIn : t.id ∉ s.queue.map (fun v => v.id) ++ s.pendingEnqueue.map (fun v => v.id) := by
      intro hmem
      rw [← List.map_append] at hmem
      rcases List.mem_map.mp hmem with ⟨v, hv', hid⟩
      exact hfq v hv' hid
    have hOld : (s.queue.map (fun v => v.id) ++ s.pendingEnqueue.map (fun v => v.id)).Nodup := by
      simpa [queuedIDs] using hN
    split_ifs at hok with hlen
    · cases hok
      refine ⟨?_, ?_, ?_⟩
      · intro v hv'
        simp only [hup] at hv'
        exact hTasks v hv'
      · intro q hq' v hv' hid
        simp only [hup] at hv'
        apply hQmain q ?_ v hv' hid
        rcases List.mem_append.mp hq' with h | h
        · rcases List.mem_append.mp h with h1 | h1
          · exact Or.inl (List.mem_append_left _ h1)
          · exact Or.inr (by simpa using h1)
        · exact Or.inl (List.mem_append_right _ h)
      · show (((s.queue ++ [initializedTask t now]) ++ s.pendingEnqueue).map (fun v => v.id)).Nodup
        have heq : (s.queue ++ [initializedTask t now]) ++ s.pendingEnqueue
            = s.queue ++ (initializedTask t now) :: s.pendingEnqueue := by
          rw [List.append_assoc]
          rfl
        rw [heq, List.map_append, List.map_cons, List.nodup_middle, List.nodup_cons]
        exact ⟨hNotIn, hOld⟩
    · cases hok
      refine ⟨?_, ?_, ?_⟩
      · intro v hv'
        simp only [hup] at hv'
        exact hTasks v hv'
      · intro q hq' v hv' hid
        simp only [hup] at hv'
        apply hQmain q ?_ v hv' hid
        rcases List.mem_append.mp hq' with h | h
        · exact Or.inl (List.mem_append_left _ h)
        · rcases List.mem_append.mp h with h1 | h1
          · exact Or.inl (List.mem_append_right _ h1)
          · exact Or.inr (by simpa using h1)
      · show ((s.queue ++ (s.pendingEnqueue ++ [initializedTask t now])).map (fun v => v.id)).Nodup
        have heq : s.queue ++ (s.pendingEnqueue ++ [initializedTask t now])
            = (s.queue ++ s.pendingEnqueue) ++ (initializedTask t now) :: [] := by
          rw [List.append_assoc]
        rw [heq, List.map_append, List.map_cons, List.nodup_middle, List.nodup_cons]
        refine ⟨?_, ?_⟩
        · simpa using hNotIn
        · simpa using hOld

theorem invD_process {s : TMState} {t : Task} {rest : List Task} {nodes : List Node} {now : String}
    (hinv : InvD s) (hq : s.queue = t :: rest) (hn : ∀ n ∈ nodes, n.id ≠ "") :
    InvD (processTask { s with queue := rest } t nodes now) := by
  obtain ⟨hT, hQ, hN⟩ := hinv
  rw [hq] at hQ
  simp only [queuedIDs, hq, List.cons_append, List.map_cons, List.nodup_cons] at hN
  obtain ⟨hNt, hNrest⟩ := hN
  have hQt : ∀ u ∈ s.tasks, u.id = t.id → u.status = TaskStatus.new ∧ u.nodeID = "" :=
    fun u hu hid => hQ t (by simp) u hu hid
  have hQtail : ∀ q ∈ rest ++ s.pendingEnqueue, ∀ u ∈ s.tasks, u.id = q.id →
      u.status = TaskStatus.new ∧ u.nodeID = "" := by
    intro q hq' u hu hid
    apply hQ q ?_ u hu hid
    rcases List.mem_append.mp hq' with h | h
    · exact List.mem_append_left _ (List.mem_cons_of_mem _ h)
    · exact List.mem_append_right _ h
  have hqid : ∀ q ∈ rest ++ s.pendingEnqueue, q.id ≠ t.id := by
    intro q hq' he
    exact hNt (he ▸ List.mem_map_of_mem (fun u => u.id) hq')
  have hNrest' : ((rest ++ s.pendingEnqueue).map (fun u => u.id)).Nodup := hNrest
  cases hsel : selectNodeForTask nodes t with
  | error e =>
    have hcollapse : updateTaskStatus (updateTaskStatus s.tasks t.id TaskStatus.pending now) t.id TaskStatus.failed now
        = mapUpd s.tasks t.id (fun u => { u with status := TaskStatus.failed, updatedAt := now }) := by
      simp only [updateTaskStatus, mapUpd, List.map_map]
      apply List.map_congr_left
      intro x _
      by_cases hx : x.id = t.id <;> simp [Function.comp, hx]
    simp only [processTask, hsel]
    rw [hcollapse]
    refine ⟨?_, ?_, ?_⟩
    · intro v hv
      rcases mem_mapUpd hv with ⟨u, hu, hcase⟩
      rcases hcase with ⟨hid, hve⟩ | ⟨hid, hve⟩
      · obtain ⟨-, hnid⟩ := hQt u hu hid
        rw [hve]
        simp [TaskNodeInv, hnid]
      · rw [hve]
        exact hT u hu
    · intro q hq' v hv hid
      rcases mem_mapUpd hv with ⟨u, hu, hcase⟩
      rcases hcase with ⟨hidu, hve⟩ | ⟨hidu, hve⟩
      · exfalso
        apply hqid q hq'
        rw [← hid, hve]
        exact hidu
      · rw [hve] at hid ⊢
        exact hQtail q hq' u hu hid
    · simpa [queuedIDs] using hNrest'
  | ok o =>
    cases o with
    | none =>
      simp only [processTask, hsel]
      refine ⟨?_, ?_, ?_⟩
      · intro v hv
        rcases mem_mapUpd hv with ⟨u, hu, hcase⟩
        rcases hcase with ⟨hid, hve⟩ | ⟨hid, hve⟩
        · obtain ⟨-, hnid⟩ := hQt u hu hid
          rw [hve]
          simp [TaskNodeInv, hnid]
        · rw [hve]
          exact hT u hu
      · intro q hq' v hv hid
        rcases mem_mapUpd hv with ⟨u, hu, hcase⟩
        rcases hcase with ⟨hidu, hve⟩ | ⟨hidu, hve⟩
        · exfalso
          apply hqid q hq'
          rw [← hid, hve]
          exact hidu
        · rw [hve] at hid ⊢
          exact hQtail q hq' u hu hid
      · simpa [queuedIDs] using hNrest'
    | some node =>
      have hmem : node ∈ nodes := selectNodeForTask_ok_some_mem hsel
      have hnid : node.id ≠ "" := hn node hmem
      have hcollapse : setStartedAt (updateTaskStatus (updateTaskStatus (assignNodeID (updateTaskStatus s.tasks t.id TaskStatus.pending now) t.id node.id) t.id TaskStatus.assigned now) t.id TaskStatus.running now) t.id now
          = mapUpd s.tasks t.id (fun u => { u with status := TaskStatus.running, nodeID := node.id, updatedAt := now, startedAt := now }) := by
        simp only [updateTaskStatus, assignNodeID, setStartedAt, mapUpd, List.map_map]
        apply List.map_congr_left
        intro x _
        by_cases hx : x.id = t.id <;> simp [Function.comp, hx]
      simp only [processTask, hsel]
      rw [hcollapse]
      refine ⟨?_, ?_, ?_⟩
      · intro v hv
        rcases mem_mapUpd hv with ⟨u, hu, hcase⟩
        rcases hcase with ⟨hid, hve⟩ | ⟨hid, hve⟩
        · rw [hve]
          simp [TaskNodeInv, hnid]
        · rw [hve]
          exact hT u hu
      · intro q hq' v hv hid
        rcases mem_mapUpd hv with ⟨u, hu, hcase⟩
        rcases hcase with ⟨hidu, hve⟩ | ⟨hidu, hve⟩
        · exfalso
          apply hqid q hq'
          rw [← hid, hve]
          exact hidu
        · rw [hve] at hid ⊢
          exact hQtail q hq' u hu hid
      · simpa [queuedIDs] using hNrest'

theorem invD_complete {s : TMState} {taskID now : String}
    (hinv : InvD s) (hrun : ∀ u ∈ s.tasks, u.id = taskID → u.status = TaskStatus.running) :
    InvD (completeTask s taskID now) := by
  obtain ⟨hT, hQ, hN⟩ := hinv
  refine ⟨?_, ?_, ?_⟩
  · intro v hv
    rcases mem_mapUpd hv with ⟨u, hu, hcase⟩
    rcases hcase with ⟨hid, hve⟩ | ⟨hid, hve⟩
    · have hrunning := hrun u hu hid
      have hnid : u.nodeID ≠ "" := (hT u hu).mpr (Or.inr (Or.inl hrunning))
      rw [hve]
      simp [TaskNodeInv, hnid]
    · rw [hve]
      exact hT u hu
  · intro q hq' v hv hid
    rcases mem_mapUpd hv with ⟨u, hu, hcase⟩
    rcases hcase with ⟨hidu, hve⟩ | ⟨hidu, hve⟩
    · exfalso
      have hnew := (hQ q hq' u hu (by rw [← hid, hve])).1
      have := hrun u hu hidu
      rw [hnew] at this
      cases this
    · rw [hve] at hid ⊢
      exact hQ q hq' u hu hid
  · simpa [queuedIDs] using hN

theorem applyTaskUpdate_frame (u : TaskUpdate) (now : String) (t : Task) :
    (applyTaskUpdate u now t).id = t.id ∧ (applyTaskUpdate u now t).status = t.status ∧
    (applyTaskUpdate u now t).nodeID = t.nodeID := by
  simp only [applyTaskUpdate]
  cases u.desiredState <;> cases u.labels <;> by_cases h : u.name ≠ "" <;> simp [h]

theorem invD_update {s : TMState} {ts' : List Task} {taskID : String} {u : TaskUpdate} {now : String}
    (hinv : InvD s) (hok : updateTask s.tasks taskID u now = Except.ok ts') :
    InvD { s with tasks := ts' } := by
  obtain ⟨hT, hQ, hN⟩ := hinv
  simp only [updateTask] at hok
  cases hf : findTask s.tasks taskID with
  | none =>
    simp only [hf] at hok
    simp at hok
  | some w =>
    simp only [hf] at hok
    cases hok
    refine ⟨?_, ?_, ?_⟩
    · intro v hv
      rcases mem_mapUpd hv with ⟨x, hx, hcase⟩
      rcases hcase with ⟨hid, hve⟩ | ⟨hid, hve⟩
      · have hprops := applyTaskUpdate_frame u now x
        have hx' := hT x hx
        rw [hve]
        simp only [TaskNodeInv] at hx' ⊢
        rw [hprops.2.2, hprops.2.1]
        exact hx'
      · rw [hve]
        exact hT x hx
    · intro q hq' v hv hid
      rcases mem_mapUpd hv with ⟨x, hx, hcase⟩
      rcases hcase with ⟨hidx, hve⟩ | ⟨hidx, hve⟩
      · have hprops := applyTaskUpdate_frame u now x
        rw [hve] at hid
        rw [hprops.1] at hid
        have hres := hQ q hq' x hx hid
        rw [hve]
        exact ⟨hprops.2.1.trans hres.1, hprops.2.2.trans hres.2⟩
      · rw [hve] at hid ⊢
        exact hQ q hq' x hx hid
    · simpa [queuedIDs] using hN

theorem invD_removeT {s : TMState} {ts' : List Task} {taskID : String}
    (hinv : InvD s) (hok : removeTask s.tasks taskID = Except.ok ts') :
    InvD { s with tasks := ts' } := by
  obtain ⟨hT, hQ, hN⟩ := hinv
  simp only [removeTask] at hok
  cases hf : findTask s.tasks taskID with
  | none =>
    simp only [hf] at hok
    simp at hok
  | some w =>
    simp only [hf] at hok
    split_ifs at hok with hws
    cases hok
    refine ⟨?_, ?_, ?_⟩
    · intro v hv
      exact hT v (List.mem_filter.mp hv).1
    · intro q hq' v hv hid
      exact hQ q hq' v (List.mem_filter.mp hv).1 hid
    · simpa [queuedIDs] using hN

theorem invD_flush {s : TMState} {t : Task} {rest : List Task}
    (hinv : InvD s) (hp : s.pendingEnqueue = t :: rest) :
    InvD { s with queue := s.queue ++ [t], pendingEnqueue := rest } := by
  obtain ⟨hT, hQ, hN⟩ := hinv
  have hl : (s.queue ++ [t]) ++ rest = s.queue ++ s.pendingEnqueue := by
    rw [hp, List.append_assoc]
    rfl
  refine ⟨hT, ?_, ?_⟩
  · intro q hq' v hv hid
    rw [hl] at hq'
    exact hQ q hq' v hv hid
  · show (((s.queue ++ [t]) ++ rest).map (fun v => v.id)).Nodup
    rw [hl]
    simpa [queuedIDs] using hN

theorem invD_of_reachableD {s : TMState} (h : ReachableD s) : InvD s := by
  induction h with
  | init => exact invD_init
  | create _ hnode hft hfq hok ih => exact invD_create ih hnode hft hfq hok
  | process _ hq hn ih => exact invD_process ih hq hn
  | flush _ hp _ ih => exact invD_flush ih hp
  | complete _ hrun ih => exact invD_complete ih hrun
  | update _ hok ih => exact invD_update ih hok
  | removeT _ hok ih => exact invD_removeT ih hok

/-- C3 (amended): on the dispatch-path discipline — tasks submitted with
an empty `NodeID` and globally fresh identities, driven by the worker
dispatch path, `UpdateTask` and `RemoveTask`, without `RestartTask` — a
stored task's `NodeID` is non-empty exactly while its status is Assigned,
Running or Complete; in particular a task that ends Failed for lack of
capacity, or sits in New or Pending, has an empty `NodeID`.  `RestartTask`
breaks the equivalence (its clone inherits the original's `NodeID` with
status reset to New), as does a caller-supplied `NodeID` on `CreateTask`:
see the counterexample. -/
theorem task_nodeID_iff_status_dispatch (s : TMState) (h : ReachableD s) :
    ∀ t ∈ s.tasks, (t.nodeID ≠ "" ↔
      (t.status = TaskStatus.assigned ∨ t.status = TaskStatus.running ∨
        t.status = TaskStatus.complete)) :=
  (invD_of_reachableD h).1

/-- Witness for C3 (amended) at the state reached by one disciplined
`CreateTask`. -/
theorem task_nodeID_iff_status_dispatch_witness :
    ReachableD wD1 ∧ (∀ t ∈ wD1.tasks, (t.nodeID ≠ "" ↔
      (t.status = TaskStatus.assigned ∨ t.status = TaskStatus.running ∨
        t.status = TaskStatus.complete))) := by
  have e1 : createTask c3S0 wTaskB "T1" = Except.ok wD1 := rfl
  have h1 : ReachableD wD1 :=
    ReachableD.create ReachableD.init (by decide) (by decide) (by decide) e1
  exact ⟨h1, task_nodeID_iff_status_dispatch wD1 h1⟩

theorem findNode_map_upd (ns : List Node) (k : String) (g : Node → Node)
    (hg : ∀ n : Node, n.id = k → (g n).id = k) :
    findNode (ns.map (fun n => if n.id == k then g n else n)) k = Option.map g (findNode ns k) := by
  induction ns with
  | nil => rfl
  | cons a l ih =>
    simp only [findNode] at ih ⊢
    by_cases h : a.id = k
    · have hga : (g a).id = k := hg a h
      rw [List.map_cons, if_pos (by simpa using h),
        List.find?_cons_of_pos _ (by simpa using hga),
        List.find?_cons_of_pos _ (by simpa using h)]
      rfl
    · rw [List.map_cons, if_neg (by simpa using h),
        List.find?_cons_of_neg _ (by simpa using h),
        List.find?_cons_of_neg _ (by simpa using h)]
      exact ih

theorem restartRunning_filter (now : String) :
    ∀ (vs : List Task) (fids : List String) (s : TMState),
      restartRunning s vs fids now
        = restartRunning s (vs.filter (fun t => t.status == TaskStatus.running)) fids now
  | [], _, _ => rfl
  | v :: vs, fids, s => by
    by_cases hv : v.status = TaskStatus.running
    · rw [List.filter_cons_of_pos (by simpa using hv)]
      cases fids with
      | nil =>
        simp only [restartRunning, if_pos hv]
        exact restartRunning_filter now vs [] s
      | cons fid rest =>
        simp only [restartRunning, if_pos hv]
        cases hr : restartTask s v.id fid now with
        | ok s1 => exact restartRunning_filter now vs rest s1
        | error e => exact restartRunning_filter now vs rest s
    · rw [List.filter_cons_of_neg (by simpa using hv)]
      simp only [restartRunning, if_neg hv]
      exact restartRunning_filter now vs fids s

theorem restartRunning_spec (now : String) :
    ∀ (vs : List Task) (fids : List String) (s : TMState),
      (∀ v ∈ vs, v.status = TaskStatus.running) →
      (∀ v ∈ vs, findTask s.tasks v.id = some v) →
      (vs.map (fun v => v.id)).Nodup →
      fids.Nodup →
      vs.length ≤ fids.length →
      (∀ f ∈ fids, ∀ u ∈ s.tasks, u.id ≠ f) →
      ((∀ v ∈ vs, findTask (restartRunning s vs fids now).tasks v.id = some (stoppedTask v now)) ∧
       (∀ p ∈ vs.zip fids,
         findTask (restartRunning s vs fids now).tasks p.2 = some (cloneTask p.1 p.2 now) ∧
         cloneTask p.1 p.2 now ∈ (restartRunning s vs fids now).queue) ∧
       (∀ k : String, (∀ v ∈ vs, k ≠ v.id) → (∀ f ∈ fids, k ≠ f) →
         findTask (restartRunning s vs fids now).tasks k = findTask s.tasks k) ∧
       (∀ q ∈ s.queue, q ∈ (restartRunning s vs fids now).queue))
  | [], fids, s => by
    intro _ _ _ _ _ _
    simp [restartRunning]
  | v :: vs, fids, s => by
    intro hall hfindv hnd hfnd hlen hfresh
    have hv : v.status = TaskStatus.running := hall v (List.mem_cons_self _ _)
    cases fids with
    | nil => simp at hlen
    | cons fid rest =>
      have hfv : findTask s.tasks v.id = some v := hfindv v (List.mem_cons_self _ _)
      have hrt : restartTask s v.id fid now = Except.ok (restartedState s v.id v fid now) := by
        simp only [restartTask, hfv]
      have hstep : restartRunning s (v :: vs) (fid :: rest) now
          = restartRunning (restartedState s v.id v fid now) vs rest now := by
        simp only [restartRunning, if_pos hv, hrt]
      have hfreshHead : ∀ u ∈ s.tasks, u.id ≠ fid :=
        fun u hu => hfresh fid (List.mem_cons_self _ _) u hu
      have hA : ∀ w ∈ mapUpd s.tasks v.id (fun _ => stoppedTask v now), w.id ≠ fid := by
        intro w hw
        rcases mem_mapUpd hw with ⟨u, hu, hcase⟩
        rcases hcase with ⟨hid, hwe⟩ | ⟨hid, hwe⟩
        · rw [hwe]
          show (stoppedTask v now).id ≠ fid
          have : v ∈ s.tasks := (mem_of_findTask hfv).1
          exact hfreshHead v this
        · rw [hwe]
          exact hfreshHead u hu
      have htasks1 : (restartedState s v.id v fid now).tasks
          = mapUpd s.tasks v.id (fun _ => stoppedTask v now) ++ [cloneTask v fid now] := by
        show upsertTask (mapUpd s.tasks v.id (fun _ => stoppedTask v now)) (cloneTask v fid now) = _
        exact upsertTask_fresh (fun w hw => hA w hw)
      have hgstop : ∀ u : Task, u.id = v.id → ((fun _ : Task => stoppedTask v now) u).id = v.id :=
        fun u _ => rfl
      have hfind1v : findTask (restartedState s v.id v fid now).tasks v.id
          = some (stoppedTask v now) := by
        rw [htasks1, findTask_append, findTask_mapUpd _ _ _ hgstop, hfv]
        rfl
      have hfind1f : findTask (restartedState s v.id v fid now).tasks fid
          = some (cloneTask v fid now) := by
        show findTask (upsertTask (mapUpd s.tasks v.id (fun _ => stoppedTask v now)) (cloneTask v fid now)) fid = _
        exact findTask_upsert _ _
      have hframe1 : ∀ k : String, k ≠ v.id → k ≠ fid →
          findTask (restartedState s v.id v fid now).tasks k = findTask s.tasks k := by
        intro k hkv hkf
        show findTask (upsertTask (mapUpd s.tasks v.id (fun _ => stoppedTask v now)) (cloneTask v fid now)) k = _
        rw [findTask_upsert_ne _ _ hkf, findTask_mapUpd_ne _ _ _ _ hgstop hkv]
      have hqueue1 : (restartedState s v.id v fid now).queue = s.queue ++ [cloneTask v fid now] := rfl
      have hmem1 : ∀ u ∈ (restartedState s v.id v fid now).tasks, ∃ w ∈ s.tasks, u.id = w.id ∨ u.id = fid := by
        intro u hu
        rw [htasks1] at hu
        rcases List.mem_append.mp hu with h | h
        · rcases mem_mapUpd h with ⟨w, hw, hcase⟩
          rcases hcase with ⟨hid, hwe⟩ | ⟨hid, hwe⟩
          · refine ⟨v, (mem_of_findTask hfv).1, Or.inl ?_⟩
            rw [hwe]
            exact hid.symm ▸ rfl
          · exact ⟨w, hw, Or.inl (by rw [hwe])⟩
        · have : u = cloneTask v fid now := by simpa using h
          refine ⟨v, (mem_of_findTask hfv).1, Or.inr ?_⟩
          rw [this]
          rfl
      have hndv : ∀ w ∈ vs, w.id ≠ v.id := by
        simp only [List.map_cons, List.nodup_cons] at hnd
        intro w hw he
        exact hnd.1 (he ▸ List.mem_map_of_mem (fun u => u.id) hw)
      have hmemS : ∀ w ∈ vs, w ∈ s.tasks := by
        intro w hw
        exact (mem_of_findTask (hfindv w (List.mem_cons_of_mem _ hw))).1
      have hfind' : ∀ w ∈ vs, findTask (restartedState s v.id v fid now).tasks w.id = some w := by
        intro w hw
        rw [hframe1 w.id (hndv w hw) (hfreshHead w (hmemS w hw))]
        exact hfindv w (List.mem_cons_of_mem _ hw)
      have hfidrest : fid ∉ rest := (List.nodup_cons.mp hfnd).1
      have hfresh' : ∀ f ∈ rest, ∀ u ∈ (restartedState s v.id v fid now).tasks, u.id ≠ f := by
        intro f hf u hu
        rcases hmem1 u hu with ⟨w, hw, hcase⟩
        rcases hcase with hid | hid
        · rw [hid]
          exact hfresh f (List.mem_cons_of_mem _ hf) w hw
        · rw [hid]
          intro he
          exact hfidrest (he ▸ hf)
      have ih := restartRunning_spec now vs rest (restartedState s v.id v fid now)
        (fun w hw => hall w (List.mem_cons_of_mem _ hw)) hfind'
        ((List.nodup_cons.mp (by simpa using hnd)).2) ((List.nodup_cons.mp hfnd).2)
        (by simpa using Nat.succ_le_succ_iff.mp (by simpa using hlen)) hfresh'
      rw [hstep]
      refine ⟨?_, ?_, ?_, ?_⟩
      · intro w hw
        rcases List.mem_cons.mp hw with rfl | hw'
        · rw [ih.2.2.1 w.id (fun x hx => (hndv x hx ·.symm)) ?_]
          · exact hfind1v
          · intro f hf he
            have : w ∈ s.tasks := (mem_of_findTask hfv).1
            exact hfresh f (List.mem_cons_of_mem _ hf) w this he
        · exact ih.1 w hw'
      · intro p hp
        rcases List.mem_cons.mp (by simpa using hp) with rfl | hp'
        · constructor
          · rw [ih.2.2.1 fid ?_ ?_]
            · exact hfind1f
            · intro x hx he
              exact hfreshHead x (hmemS x hx) he.symm
            · intro f hf he
              exact hfidrest (he ▸ hf)
          · apply ih.2.2.2
            rw [hqueue1]
            simp
        · exact ih.2.1 p hp'
      · intro k hkv hkf
        rw [ih.2.2.1 k (fun x hx => hkv x (List.mem_cons_of_mem _ hx))
          (fun f hf => hkf f (List.mem_cons_of_mem _ hf))]
        exact hframe1 k (hkv v (List.mem_cons_self _ _)) (hkf fid (List.mem_cons_self _ _))
      · intro q hq
        apply ih.2.2.2
        rw [hqueue1]
        exact List.mem_append_left _ hq

/-- C4: for a registered node, `HandleNodeFailure` marks the node Down
and calls `RestartTask` for exactly that node's Running tasks: each such
original is left with desired state Complete, a clone with a fresh
identity and status New is stored and enqueued for each, and every other
task — non-Running tasks of the node included — is untouched. -/
theorem handleNodeFailure_restarts_running (nodes : List Node) (s : TMState) (nodeID : String)
    (freshIDs : List String) (now : String) (nd : Node)
    (hfind : findNode nodes nodeID = some nd)
    (hids : (s.tasks.map (fun u => u.id)).Nodup)
    (hfnd : freshIDs.Nodup)
    (hlen : (runningOn s.tasks nodeID).length ≤ freshIDs.length)
    (hfresh : ∀ f ∈ freshIDs, ∀ u ∈ s.tasks, u.id ≠ f) :
    ∃ nodes' s', handleNodeFailure nodes s nodeID freshIDs now = Except.ok (nodes', s') ∧
      findNode nodes' nodeID = some { nd with status := NodeStatus.down, updatedAt := now, lastSeen := now } ∧
      (∀ v ∈ s.tasks, v.nodeID = nodeID → v.status = TaskStatus.running →
        findTask s'.tasks v.id = some (stoppedTask v now) ∧
        (stoppedTask v now).desiredState = TaskStatus.complete) ∧
      (∀ p ∈ (runningOn s.tasks nodeID).zip freshIDs,
        findTask s'.tasks p.2 = some (cloneTask p.1 p.2 now) ∧
        (cloneTask p.1 p.2 now).status = TaskStatus.new ∧
        (cloneTask p.1 p.2 now).desiredState = TaskStatus.running ∧
        cloneTask p.1 p.2 now ∈ s'.queue) ∧
      (∀ v ∈ s.tasks, ¬ (v.nodeID = nodeID ∧ v.status = TaskStatus.running) →
        findTask s'.tasks v.id = some v) := by
  have hmemRun : ∀ v ∈ runningOn s.tasks nodeID,
      v ∈ s.tasks ∧ v.nodeID = nodeID ∧ v.status = TaskStatus.running := by
    intro v hv
    obtain ⟨hg, hr⟩ := List.mem_filter.mp hv
    obtain ⟨hm, hn⟩ := List.mem_filter.mp hg
    exact ⟨hm, by simpa using hn, by simpa using hr⟩
  have hsub : List.Sublist (runningOn s.tasks nodeID) s.tasks :=
    ((List.filter_sublist _).trans (List.filter_sublist _))
  have spec := restartRunning_spec now (runningOn s.tasks nodeID) freshIDs s
    (fun v hv => (hmemRun v hv).2.2)
    (fun v hv => findTask_of_mem_nodup hids (hmemRun v hv).1)
    (List.Nodup.sublist (List.Sublist.map _ hsub) hids)
    hfnd hlen hfresh
  have hrr : restartRunning s (getTasksByNode s.tasks nodeID) freshIDs now
      = restartRunning s (runningOn s.tasks nodeID) freshIDs now :=
    restartRunning_filter now (getTasksByNode s.tasks nodeID) freshIDs s
  refine ⟨updateNodeStatus nodes nodeID NodeStatus.down now,
    restartRunning s (getTasksByNode s.tasks nodeID) freshIDs now, ?_, ?_, ?_, ?_, ?_⟩
  · simp only [handleNodeFailure, hfind]
  · show findNode (nodes.map _) nodeID = _
    rw [findNode_map_upd nodes nodeID
      (fun n => { n with status := NodeStatus.down, updatedAt := now, lastSeen := now })
      (fun n h => h), hfind]
    rfl
  · intro v hv hnode hrun
    have hvr : v ∈ runningOn s.tasks nodeID := by
      refine List.mem_filter.mpr ⟨List.mem_filter.mpr ⟨hv, by simpa using hnode⟩, by simpa using hrun⟩
    rw [hrr]
    exact ⟨spec.1 v hvr, rfl⟩
  · intro p hp
    rw [hrr]
    obtain ⟨h1, h2⟩ := spec.2.1 p hp
    exact ⟨h1, rfl, rfl, h2⟩
  · intro v hv hnot
    rw [hrr]
    rw [spec.2.2.1 v.id ?_ ?_]
    · exact findTask_of_mem_nodup hids hv
    · intro w hw he
      obtain ⟨hwm, hwn, hwr⟩ := hmemRun w hw
      have : v = w := List.inj_on_of_nodup_map hids hv hwm he
      exact hnot ⟨this ▸ hwn, this ▸ hwr⟩
    · intro f hf he
      exact hfresh f hf v hv he

/-- Witness for C4: a node owning two Running tasks (and one Complete
task); both Running tasks are restarted, the Complete one untouched. -/
theorem handleNodeFailure_restarts_running_witness :
    ∃ nodes' s', handleNodeFailure [c4Node] c4State "w1" ["f1", "f2"] "T9" = Except.ok (nodes', s') ∧
      findNode nodes' "w1" = some { c4Node with status := NodeStatus.down, updatedAt := "T9", lastSeen := "T9" } ∧
      (∀ v ∈ c4State.tasks, v.nodeID = "w1" → v.status = TaskStatus.running →
        findTask s'.tasks v.id = some (stoppedTask v "T9") ∧
        (stoppedTask v "T9").desiredState = TaskStatus.complete) ∧
      (∀ p ∈ (runningOn c4State.tasks "w1").zip ["f1", "f2"],
        findTask s'.tasks p.2 = some (cloneTask p.1 p.2 "T9") ∧
        (cloneTask p.1 p.2 "T9").status = TaskStatus.new ∧
        (cloneTask p.1 p.2 "T9").desiredState = TaskStatus.running ∧
        cloneTask p.1 p.2 "T9" ∈ s'.queue) ∧
      (∀ v ∈ c4State.tasks, ¬ (v.nodeID = "w1" ∧ v.status = TaskStatus.running) →
        findTask s'.tasks v.id = some v) :=
  handleNodeFailure_restarts_running [c4Node] c4State "w1" ["f1", "f2"] "T9" c4Node
    (by decide) (by decide) (by decide) (by decide) (by decide)

end DockerImpl
